/-
  Verification of the pxros documentation/binding generation pipeline
  (documentation_generator/transform_input.rs,
   documentation_generator/api_docs_generator.rs, build.rs)
  against its natural-language specification.

  The Rust code is shallowly embedded: serde_json `Value` becomes the
  inductive `Json` (objects as association lists, first-match lookup, as
  serde maps have unique keys), panics (`expect`, out-of-bounds indexing)
  become `Except String`, and the `fmt::Display` line output becomes a
  `List String` of lines.
-/
import Mathlib

namespace Pxros

/-- serde_json `Value`. Numbers are modelled as `Int` (no claim touches
    number contents). Objects are association lists with first-match
    lookup; serde maps have unique keys, which first-match lookup honours. -/
inductive Json where
  | jnull : Json
  | jbool : Bool → Json
  | jnum : Int → Json
  | jstr : String → Json
  | jarr : List Json → Json
  | jobj : List (String × Json) → Json
  deriving Repr

mutual

def decEqJson : (a b : Json) → Decidable (a = b)
  | .jnull, .jnull => isTrue rfl
  | .jnull, .jbool _ => isFalse (fun h => Json.noConfusion h)
  | .jnull, .jnum _ => isFalse (fun h => Json.noConfusion h)
  | .jnull, .jstr _ => isFalse (fun h => Json.noConfusion h)
  | .jnull, .jarr _ => isFalse (fun h => Json.noConfusion h)
  | .jnull, .jobj _ => isFalse (fun h => Json.noConfusion h)
  | .jbool _, .jnull => isFalse (fun h => Json.noConfusion h)
  | .jbool x, .jbool y =>
    match Bool.decEq x y with
    | isTrue h => isTrue (congrArg Json.jbool h)
    | isFalse h => isFalse (fun heq => h (by injection heq))
  | .jbool _, .jnum _ => isFalse (fun h => Json.noConfusion h)
  | .jbool _, .jstr _ => isFalse (fun h => Json.noConfusion h)
  | .jbool _, .jarr _ => isFalse (fun h => Json.noConfusion h)
  | .jbool _, .jobj _ => isFalse (fun h => Json.noConfusion h)
  | .jnum _, .jnull => isFalse (fun h => Json.noConfusion h)
  | .jnum _, .jbool _ => isFalse (fun h => Json.noConfusion h)
  | .jnum x, .jnum y =>
    match Int.instDecidableEq x y with
    | isTrue h => isTrue (congrArg Json.jnum h)
    | isFalse h => isFalse (fun heq => h (by injection heq))
  | .jnum _, .jstr _ => isFalse (fun h => Json.noConfusion h)
  | .jnum _, .jarr _ => isFalse (fun h => Json.noConfusion h)
  | .jnum _, .jobj _ => isFalse (fun h => Json.noConfusion h)
  | .jstr _, .jnull => isFalse (fun h => Json.noConfusion h)
  | .jstr _, .jbool _ => isFalse (fun h => Json.noConfusion h)
  | .jstr _, .jnum _ => isFalse (fun h => Json.noConfusion h)
  | .jstr x, .jstr y =>
    match String.decEq x y with
    | isTrue h => isTrue (congrArg Json.jstr h)
    | isFalse h => isFalse (fun heq => h (by injection heq))
  | .jstr _, .jarr _ => isFalse (fun h => Json.noConfusion h)
  | .jstr _, .jobj _ => isFalse (fun h => Json.noConfusion h)
  | .jarr _, .jnull => isFalse (fun h => Json.noConfusion h)
  | .jarr _, .jbool _ => isFalse (fun h => Json.noConfusion h)
  | .jarr _, .jnum _ => isFalse (fun h => Json.noConfusion h)
  | .jarr _, .jstr _ => isFalse (fun h => Json.noConfusion h)
  | .jarr x, .jarr y =>
    match decEqJsonList x y with
    | isTrue h => isTrue (congrArg Json.jarr h)
    | isFalse h => isFalse (fun heq => h (by injection heq))
  | .jarr _, .jobj _ => isFalse (fun h => Json.noConfusion h)
  | .jobj _, .jnull => isFalse (fun h => Json.noConfusion h)
  | .jobj _, .jbool _ => isFalse (fun h => Json.noConfusion h)
  | .jobj _, .jnum _ => isFalse (fun h => Json.noConfusion h)
  | .jobj _, .jstr _ => isFalse (fun h => Json.noConfusion h)
  | .jobj _, .jarr _ => isFalse (fun h => Json.noConfusion h)
  | .jobj x, .jobj y =>
    match decEqJsonObj x y with
    | isTrue h => isTrue (congrArg Json.jobj h)
    | isFalse h => isFalse (fun heq => h (by injection heq))

def decEqJsonList : (a b : List Json) → Decidable (a = b)
  | [], [] => isTrue rfl
  | [], _ :: _ => isFalse (fun h => List.noConfusion h)
  | _ :: _, [] => isFalse (fun h => List.noConfusion h)
  | x :: xs, y :: ys =>
    match decEqJson x y, decEqJsonList xs ys with
    | isTrue h1, isTrue h2 => isTrue (by rw [h1, h2])
    | isFalse h1, _ => isFalse (fun h => by injection h with ha hb; exact h1 ha)
    | _, isFalse h2 => isFalse (fun h => by injection h with ha hb; exact h2 hb)

def decEqJsonObj : (a b : List (String × Json)) → Decidable (a = b)
  | [], [] => isTrue rfl
  | [], _ :: _ => isFalse (fun h => List.noConfusion h)
  | _ :: _, [] => isFalse (fun h => List.noConfusion h)
  | (k1, v1) :: xs, (k2, v2) :: ys =>
    match String.decEq k1 k2, decEqJson v1 v2, decEqJsonObj xs ys with
    | isTrue hk, isTrue hv, isTrue ht => isTrue (by rw [hk, hv, ht])
    | isFalse hk, _, _ => isFalse (fun h => by
        injection h with ha hb
        injection ha with hk' hv'
        exact hk hk')
    | _, isFalse hv, _ => isFalse (fun h => by
        injection h with ha hb
        injection ha with hk' hv'
        exact hv hv')
    | _, _, isFalse ht => isFalse (fun h => by
        injection h with ha hb
        exact ht hb)

end

instance : DecidableEq Json := decEqJson

namespace Json

/-- First-match association-list lookup (serde maps have unique keys). -/
def lookupEntries (k : String) : List (String × Json) → Option Json
  | [] => none
  | (k', v') :: rest => if k' = k then some v' else lookupEntries k rest

/-- Models `Value::get(key)` on an object (None on non-objects). -/
def getKey : Json → String → Option Json
  | jobj fields, k => lookupEntries k fields
  | _, _ => none

/-- Replace the value of the first occurrence of `k` (models in-place
    mutation through `get_mut`). -/
def setEntries (k : String) (v : Json) : List (String × Json) → List (String × Json)
  | [] => []
  | (k', v') :: rest =>
    if k' = k then (k', v) :: rest else (k', v') :: setEntries k v rest

def setKey : Json → String → Json → Json
  | jobj fields, k, v => jobj (setEntries k v fields)
  | j, _, _ => j

/-- Models `Value::as_array`. -/
def asArray : Json → Option (List Json)
  | jarr a => some a
  | _ => none

/-- Models `Value::as_str`. -/
def asStr : Json → Option String
  | jstr s => some s
  | _ => none

end Json

open Json

/-- The new value `modify_structure` (transform_input.rs:78-90) assigns to
    the array under `key`: look at the first element's value under
    `target_key`; an array replaces the whole field, a string is wrapped
    into a one-element array; otherwise, if any element has an "ARM-CMX"
    key the field becomes empty, else it is left as-is (`array.clone()`). -/
def flattenArr (targetKey : String) (a : List Json) : List Json :=
  match (a.head?).bind (fun entry => entry.getKey targetKey) with
  | some (jarr target) => target
  | some (jstr s) => [jstr s]
  | _ =>
    if a.any (fun entry => (entry.getKey "ARM-CMX").isSome) then [] else a

/-- Models `modify_structure` (transform_input.rs:78-90): rewrites the array under
    `key` via `flattenArr`; fields that are absent or not arrays are
    untouched. -/
def modifyStructure (j : Json) (key targetKey : String) : Json :=
  match j.getKey key with
  | some (jarr a) => j.setKey key (jarr (flattenArr targetKey a))
  | _ => j

/-- Whitespace in the sense of Rust `str::trim` (ASCII part of Unicode
    White_Space; the doc corpus is ASCII). -/
def isWs (c : Char) : Bool :=
  c = ' ' || c = '\t' || c = '\n' || c = '\r' || c = '\x0b' || c = '\x0c'

/-- Rust `str::trim` on the character list. -/
def trimChars (l : List Char) : List Char :=
  ((l.dropWhile isWs).reverse.dropWhile isWs).reverse

/-- Rust `str::trim`. -/
def rustTrim (s : String) : String := ⟨trimChars s.data⟩

/-- Contribution of one `description.long` block to the accumulated text
    (the loop body of transform_description, transform_input.rs:110-149):
    "PP" blocks contribute each TC23 string (or the flat "text" string)
    wrapped in newlines; "BL" blocks contribute "\n * item" per TC23
    bullet, or, when taken from the flat "text" array, "\n * item" per
    bullet followed by one extra newline; anything else contributes
    nothing. -/
def blockText (targetKey : String) (item : Json) : String :=
  match (item.getKey "type").bind asStr with
  | none => ""
  | some itemType =>
    if itemType = "PP" then
      match (item.getKey targetKey).bind asArray with
      | some ppContent =>
        ppContent.foldl
          (fun acc content =>
            match content.asStr with
            | some t => acc ++ "\n" ++ t ++ "\n"
            | none => acc) ""
      | none =>
        match (item.getKey "text").bind asStr with
        | some t => "\n" ++ t ++ "\n"
        | none => ""
    else if itemType = "BL" then
      match (item.getKey targetKey).bind asArray with
      | some bullets =>
        bullets.foldl
          (fun acc b =>
            match b.asStr with
            | some t => acc ++ "\n * " ++ t
            | none => acc) ""
      | none =>
        match (item.getKey "text").bind asArray with
        | some bullets =>
          (bullets.foldl
            (fun acc b =>
              match b.asStr with
              | some t => acc ++ "\n * " ++ t
              | none => acc) "") ++ "\n"
        | none => ""
    else ""

/-- Models `transform_description` (transform_input.rs:105-158): when
    `description.long` is an array, concatenate the block texts and replace
    `long` with a single `{"type": "PP", "text": <trimmed text>}` element. -/
def transformDescription (j : Json) (targetKey : String) : Json :=
  match j.getKey "description" with
  | some descr =>
    match (descr.getKey "long").bind asArray with
    | some long =>
      let text := long.foldl (fun acc item => acc ++ blockText targetKey item) ""
      j.setKey "description"
        (descr.setKey "long"
          (jarr [jobj [("type", jstr "PP"), ("text", jstr (rustTrim text))]]))
    | none => j
  | none => j

/-- One iteration of the `transform_cop` section loop
    (transform_input.rs:172-185): when the section under `key` is an array
    whose first element holds an array under `targetKey`, the section is
    replaced by that array's string elements. -/
def copStep (targetKey : String) (cop : Json) (key : String) : Json :=
  match cop.getKey key with
  | some (jarr sec) =>
    match sec.head? with
    | some first =>
      match first.getKey targetKey with
      | some (jarr targetArray) =>
        cop.setKey key
          (jarr (targetArray.foldl
            (fun acc item =>
              match item.asStr with
              | some t => acc ++ [jstr t]
              | none => acc) []))
      | _ => cop
    | none => cop
  | _ => cop

/-- Models `transform_cop` (transform_input.rs:170-188): flatten the "BeforeCall",
    "AfterCall" and "BestPractice" sections of "cop", in that order. -/
def transformCop (j : Json) (targetKey : String) : Json :=
  match j.getKey "cop" with
  | some cop =>
    let cop := copStep targetKey cop "BeforeCall"
    let cop := copStep targetKey cop "AfterCall"
    let cop := copStep targetKey cop "BestPractice"
    j.setKey "cop" cop
  | none => j

/-- The pure transformation applied by `transform_input`
    (transform_input.rs:191-197) to the parsed JSON value. -/
def transformJson (j : Json) : Json :=
  let j := modifyStructure j "synopsis" "TC23"
  let j := modifyStructure j "arguments" "TC23"
  let j := modifyStructure j "appliesTo" "TC23"
  let j := modifyStructure j "errCodes" "TC23"
  let j := modifyStructure j "usage" "TC23"
  let j := transformDescription j "TC23"
  transformCop j "TC23"

/-- Models `transform_input` (transform_input.rs:43-200), with file reading and
    JSON parsing abstracted: the argument is the outcome of parsing the
    file's contents (`none` = the contents are not valid JSON, in which
    case the code panics via `expect("Failed to parse JSON")`, modelled as
    `Except.error`). The pretty-print/re-parse round trip between
    transform_input and ApiDescription::from_modified_string is the
    identity on the JSON value and is modelled as such. -/
def transformInput (parsed : Option Json) : Except String Json :=
  match parsed with
  | none => .error "Failed to parse JSON"
  | some j => .ok (transformJson j)

/-! ## The ApiDescription data model (api_docs_generator.rs:16-83) -/

structure ApiName where
  key : String
  display : String
  deriving DecidableEq, Repr

structure Argument where
  name : String
  description : String
  deriving DecidableEq, Repr

/-- Models `Paragraph` (api_docs_generator.rs:52-56); the Rust field is `r#type`. -/
structure Paragraph where
  ptype : String
  text : String
  deriving DecidableEq, Repr

structure Description where
  short : String
  long : List Paragraph
  deriving DecidableEq, Repr

structure SeeAlso where
  key : String
  display : String
  deriving DecidableEq, Repr

structure Cop where
  before_call : List String
  after_call : List String
  best_practice : List String
  deriving DecidableEq, Repr

structure ApiDescription where
  name : ApiName
  synopsis : Option (List String)
  arguments : Option (List Argument)
  ret_values : Option (List String)
  err_codes : Option (List String)
  applies_to : List String
  description : Description
  see_also : Option (List SeeAlso)
  usage : Option (List String)
  cop : Option Cop
  deriving DecidableEq, Repr

/-! ## serde deserialization of ApiDescription
    (`ApiDescription::from_modified_string`, api_docs_generator.rs:234-237).
    Derived serde semantics: the document must be an object; a missing or
    null `Option` field is `none`; a missing required field or an
    ill-typed value is an error; unknown fields are ignored. -/

def parseStr : Json → Except String String
  | jstr s => .ok s
  | _ => .error "invalid type: expected a string"

def parseStrList : Json → Except String (List String)
  | jarr a => a.mapM parseStr
  | _ => .error "invalid type: expected an array"

def reqField (j : Json) (k : String) (p : Json → Except String α) : Except String α :=
  match j.getKey k with
  | none => .error ("missing field " ++ k)
  | some v => p v

def optField (j : Json) (k : String) (p : Json → Except String α) :
    Except String (Option α) :=
  match j.getKey k with
  | none => .ok none
  | some jnull => .ok none
  | some v => (p v).map some

def parseApiName (j : Json) : Except String ApiName := do
  let key ← reqField j "key" parseStr
  let display ← reqField j "display" parseStr
  pure ⟨key, display⟩

def parseArgument (j : Json) : Except String Argument := do
  let name ← reqField j "name" parseStr
  let description ← reqField j "description" parseStr
  pure ⟨name, description⟩

def parseParagraph (j : Json) : Except String Paragraph := do
  let t ← reqField j "type" parseStr
  let text ← reqField j "text" parseStr
  pure ⟨t, text⟩

def parseDescription (j : Json) : Except String Description := do
  let short ← reqField j "short" parseStr
  let long ← reqField j "long" (fun v =>
    match v with
    | jarr a => a.mapM parseParagraph
    | _ => .error "invalid type: expected an array")
  pure ⟨short, long⟩

def parseSeeAlso (j : Json) : Except String SeeAlso := do
  let key ← reqField j "key" parseStr
  let display ← reqField j "display" parseStr
  pure ⟨key, display⟩

def parseCop (j : Json) : Except String Cop := do
  let b ← reqField j "BeforeCall" parseStrList
  let a ← reqField j "AfterCall" parseStrList
  let p ← reqField j "BestPractice" parseStrList
  pure ⟨b, a, p⟩

/-- serde parse of the whole `ApiDescription` struct. -/
def parseApiDescription (j : Json) : Except String ApiDescription := do
  let name ← reqField j "name" parseApiName
  let synopsis ← optField j "synopsis" parseStrList
  let arguments ← optField j "arguments" (fun v =>
    match v with
    | jarr a => a.mapM parseArgument
    | _ => .error "invalid type: expected an array")
  let retValues ← optField j "retValues" parseStrList
  let errCodes ← optField j "errCodes" parseStrList
  let appliesTo ← reqField j "appliesTo" parseStrList
  let description ← reqField j "description" parseDescription
  let seeAlso ← optField j "seeAlso" (fun v =>
    match v with
    | jarr a => a.mapM parseSeeAlso
    | _ => .error "invalid type: expected an array")
  let usage ← optField j "usage" parseStrList
  let cop ← optField j "cop" parseCop
  pure ⟨name, synopsis, arguments, retValues, errCodes, appliesTo, description,
        seeAlso, usage, cop⟩

/-! ## The renderer (api_docs_generator.rs:86-348) -/

/-- Regex word character (`\w`), restricted to ASCII as in the doc corpus. -/
def isWordChar (c : Char) : Bool := c.isAlphanum || c = '_'

/-- Character class `[A-Z_]` of the `make_literal` regex. -/
def isCapOrUnderscore (c : Char) : Bool := ('A' ≤ c && c ≤ 'Z') || c = '_'

/-- Wrap a completed word-character run in backticks when it is a
    non-empty run of `[A-Z_]` (both `\b` anchors hold at run edges). -/
def mlFlush (acc : List Char) : List Char :=
  if !acc.isEmpty && acc.all isCapOrUnderscore then '`' :: (acc ++ ['`']) else acc

/-- Scanner for `Regex::replace_all(r"\b[A-Z_]+\b", "`$0`")`: a match must
    cover an entire maximal word-character run (there is no word boundary
    inside a run), so replace_all wraps exactly the maximal word runs that
    consist solely of uppercase letters and underscores. -/
def mlGo (acc : List Char) : List Char → List Char
  | [] => mlFlush acc
  | c :: rest =>
    if isWordChar c then mlGo (acc ++ [c]) rest
    else mlFlush acc ++ c :: mlGo [] rest

/-- Models `make_literal` (api_docs_generator.rs:86-92). -/
def makeLiteral (s : String) : String := ⟨mlGo [] s.data⟩

/-- Models `remove_new_lines` (api_docs_generator.rs:94-100). -/
def removeNewLines (line : String) : String :=
  if line.startsWith "\n" || line.endsWith "\n" then line
  else line.replace "\n" " "

/-- Character-level split at every separator character, keeping empty
    pieces (the semantics of Rust `str::split` with a char/class pattern). -/
def splitOnPred (p : Char → Bool) : List Char → List (List Char)
  | [] => [[]]
  | c :: rest =>
    match splitOnPred p rest with
    | [] => [[]]
    | piece :: pieces =>
      if p c then [] :: piece :: pieces else (c :: piece) :: pieces

/-- Rust `split_whitespace`: split on whitespace, dropping empty pieces. -/
def splitWhitespaceR (s : String) : List String :=
  ((splitOnPred isWs s.data).map String.mk).filter (· ≠ "")

/-- Rust `Vec::join(sep)`. -/
def joinSep (sep : String) : List String → String
  | [] => ""
  | [x] => x
  | x :: rest => x ++ sep ++ joinSep sep rest

/-- Effectful map over a list in the `Except` monad (the shape of the
    Rust for-loops whose body can panic or early-return). -/
def mapMExcept (f : α → Except String β) : List α → Except String (List β)
  | [] => .ok []
  | x :: rest =>
    match f x with
    | .error e => .error e
    | .ok y =>
      match mapMExcept f rest with
      | .error e => .error e
      | .ok ys => .ok (y :: ys)

/-- The capture of the first match of the regex `\(([^)]*)\)`: the text
    between the first `(` and the next `)` after it (no match when no `)`
    follows the first `(`, in which case no later `(` can match either). -/
def extractParens (s : List Char) : Option (List Char) :=
  match s.dropWhile (· ≠ '(') with
  | [] => none
  | _ :: rest =>
    let inner := rest.takeWhile (· ≠ ')')
    if inner.length = rest.length then none else some inner

/-- Argument tokenization of `convert_c_func_to_rust`
    (api_docs_generator.rs:146-149): split on commas and whitespace,
    dropping empty pieces. -/
def tokenizeArg (arg : String) : List String :=
  ((splitOnPred (fun c => c = ',' || isWs c) arg.data).map String.mk).filter (· ≠ "")

/-- Rendering of one tokenized argument (api_docs_generator.rs:150-161):
    two tokens `[t, n]` render as `n: t`, three tokens `[t, n, t2]` render
    as `n: t t2` (the middle token is used as the name), any other token
    count is dropped. -/
def renderTokens : List String → Option String
  | [t, n] => some (rustTrim n ++ ": " ++ rustTrim t)
  | [t, n, t2] => some (rustTrim n ++ ": " ++ rustTrim t ++ " " ++ rustTrim t2)
  | _ => none

/-- Per-argument rendering of `convert_c_func_to_rust`
    (api_docs_generator.rs:145-161). -/
def renderArg (arg : String) : Option String :=
  renderTokens (tokenizeArg arg)

/-- Models `convert_c_func_to_rust` (api_docs_generator.rs:124-177). The Rust
    function indexes `parts[0]` and `parts[1]` unconditionally; with fewer
    than two whitespace tokens this panics (out-of-bounds), modelled as
    `Except.error`. -/
def convertCFuncToRust (cFunc : String) : Except String String :=
  let trimmed := rustTrim cFunc
  let parts := splitWhitespaceR trimmed
  match parts with
  | [] => .error "index out of bounds: parts[0]"
  | [_] => .error "index out of bounds: parts[1]"
  | returnType :: nameTok :: _ =>
    let funcName := String.mk (nameTok.data.takeWhile (· ≠ '('))
    let argumentsL : List String :=
      match extractParens trimmed.data with
      | some inner =>
        (((splitOnPred (· = ',') inner).map
          (fun piece => rustTrim (String.mk piece))).filter (· ≠ ""))
      | none => []
    let rustParams : List String :=
      if !argumentsL.isEmpty && argumentsL.headD "" ≠ "void" then
        argumentsL.foldl
          (fun acc arg =>
            match renderArg arg with
            | some r => acc ++ [r]
            | none => acc) []
      else []
    let rustReturnType := if returnType ≠ "void" then "-> " ++ returnType else ""
    .ok ("fn " ++ funcName ++ "(" ++ joinSep ", " rustParams ++ ") "
         ++ rustReturnType ++ ";")

/-- Models `write_section` with `FormatType::List` (api_docs_generator.rs:200-208):
    a blank comment line, the section header, then one bullet per item. -/
def writeSectionList (title : String) (items : List String) (literal : Bool) :
    List String :=
  "///" :: ("/// ### " ++ title) ::
    items.map (fun item => "/// * " ++ (if literal then makeLiteral item else item))

/-- Models `write_section` with `FormatType::Normal` (api_docs_generator.rs:194-199):
    every item goes through `convert_c_func_to_rust`, whose panic aborts
    the rendering. -/
def writeSectionNormal (title : String) (items : List String) :
    Except String (List String) := do
  let lines ← mapMExcept (fun item =>
    (convertCFuncToRust item).map (fun r => "/// " ++ r)) items
  pure ("///" :: ("/// ### " ++ title) :: lines)

/-- Models `write_section` with `FormatType::Code` (api_docs_generator.rs:209-215). -/
def writeSectionCode (title : String) (items : List String) : List String :=
  "///" :: ("/// ### " ++ title) :: "/// ```c" ::
    (items.map (fun item => "/// " ++ item.replace "\t" " ") ++ ["/// ```"])

/-! Sections of `impl fmt::Display for ApiDescription`
    (api_docs_generator.rs:241-348), in source order. Each `writeln!`
    becomes one list element. -/

def shortLongLines (d : ApiDescription) : List String :=
  ("/// " ++ d.description.short) ::
    d.description.long.flatMap (fun paragraph =>
      "///" :: (paragraph.text.splitOn "\n").map
        (fun line => "/// " ++ removeNewLines line))

def appliesToSection (d : ApiDescription) : List String :=
  if d.applies_to.isEmpty then []
  else writeSectionList "Applies To" d.applies_to false

def synopsisSection (d : ApiDescription) : Except String (List String) :=
  match d.synopsis with
  | some synopsis =>
    if synopsis.isEmpty then .ok [] else writeSectionNormal "Synopsis" synopsis
  | none => .ok []

def argumentsSection (d : ApiDescription) : List String :=
  match d.arguments with
  | some args =>
    if args.isEmpty then []
    else "///" :: "/// ### Arguments" ::
      args.map (fun arg => "/// * `" ++ arg.name ++ "`: " ++ arg.description)
  | none => []

def retValuesSection (d : ApiDescription) : List String :=
  match d.ret_values with
  | some retValues =>
    if retValues.isEmpty then []
    else writeSectionList "Return Values" retValues false
  | none => []

def errCodesSection (d : ApiDescription) : List String :=
  match d.err_codes with
  | some errCodes =>
    if errCodes.isEmpty then []
    else writeSectionList "Error Codes" errCodes true
  | none => []

/-- Rendering of one Conditions-of-Use subsection
    (api_docs_generator.rs:308-325): nothing when the line list is empty,
    otherwise the subsection header followed by the lines. -/
def copLines (header : String) (lines : List String) : List String :=
  if lines.isEmpty then []
  else header :: lines.map (fun line => "/// " ++ removeNewLines line)

def copSection (d : ApiDescription) : List String :=
  match d.cop with
  | some cop =>
    "///" :: "/// ### Conditions of Use" ::
      (copLines "/// #### Before Call" cop.before_call ++
       copLines "/// #### After Call" cop.after_call ++
       copLines "/// ### Best Practice" cop.best_practice)
  | none => []

def seeAlsoSection (d : ApiDescription) : List String :=
  match d.see_also with
  | some seeAlso =>
    if seeAlso.isEmpty then []
    else "///" :: "/// ### See Also" ::
      seeAlso.map (fun reference => "/// * " ++ reference.display)
  | none => []

def usageSection (d : ApiDescription) : List String :=
  match d.usage with
  | some usage =>
    if usage.isEmpty then [] else writeSectionCode "Usage" usage
  | none => []

/-- Models `impl fmt::Display for ApiDescription` (api_docs_generator.rs:241-348)
    as the list of emitted lines; a panic inside the synopsis conversion
    aborts the whole rendering. -/
def render (d : ApiDescription) : Except String (List String) := do
  let syn ← synopsisSection d
  pure (shortLongLines d ++ appliesToSection d ++ syn ++ argumentsSection d ++
        retValuesSection d ++ errCodesSection d ++ copSection d ++
        seeAlsoSection d ++ usageSection d)

/-- Models `generate_comments` (api_docs_generator.rs:387-395): transform the
    input, then either render the parsed ApiDescription or fall back to
    the inline "Failed to parse JSON: …" diagnostic; a panic anywhere is
    an `Except.error`. -/
def generateComments (parsed : Option Json) : Except String (List String) :=
  match transformInput parsed with
  | .error e => .error e
  | .ok j =>
    match parseApiDescription j with
    | .ok api => render api
    | .error e => .ok ["Failed to parse JSON: " ++ e]

/-- The per-file part of the `inject_pxapi_doc` loop (build.rs:444-475):
    each present doc file is processed independently by
    `generate_comments`; a panic while processing any file aborts the
    whole run. -/
def processFiles (files : List (Option Json)) : Except String (List (List String)) :=
  mapMExcept generateComments files

/-! ## The safe-wrapper synthesizer (build.rs:338-478)
    A shallow model of the `syn` items the build script inspects. -/

/-- One function argument of a foreign declaration. `other` stands for a
    `FnArg::Receiver` or a `FnArg::Typed` whose pattern is not a plain
    identifier; such arguments are skipped by the `filter_map` in
    build.rs:398-411. -/
inductive RFnArg where
  | typed (name ty : String) : RFnArg
  | other : RFnArg
  deriving DecidableEq, Repr

/-- Function signature: identifier, inputs, rendered return type (with
    `""` for the default return type). -/
structure RSignature where
  ident : String
  inputs : List RFnArg
  output : String
  deriving DecidableEq, Repr

/-- One item of an `extern` block. -/
inductive RForeignItem where
  | fn (sig : RSignature) : RForeignItem
  | other : RForeignItem
  deriving DecidableEq, Repr

/-- One top-level item of the generated bindings file. -/
inductive RItem where
  | foreignMod (items : List RForeignItem) : RItem
  | other : RItem
  deriving Repr

/-- Models `SafeFunctionWrapper` (build.rs:339-343). -/
structure SafeFunctionWrapper where
  function_name : String
  safety_reasoning : List String
  deriving DecidableEq, Repr

/-- A synthesized wrapper function: visibility, signature, and the body
    `unsafe { callTarget(callArgs…) }`. -/
structure RItemFn where
  vis_public : Bool
  sig : RSignature
  callTarget : String
  callArgs : List String
  deriving DecidableEq, Repr

/-- The parameter names forwarded by the wrapper body (the `filter_map`
    over `FnArg::Typed` identifier patterns, build.rs:398-411). -/
def argNames (inputs : List RFnArg) : List String :=
  inputs.filterMap (fun a =>
    match a with
    | .typed n _ => some n
    | .other => none)

/-- Rust `str::strip_prefix("__")`: the remainder after a leading `__`. -/
def stripUnderscores (s : String) : Option String :=
  match s.data with
  | '_' :: '_' :: rest => some (String.mk rest)
  | _ => none

/-- The name of the foreign function a `try_generate_safe_function_wrapper`
    call would look at: the first item of a foreign block, when it is a
    function. -/
def firstForeignFnName : RItem → Option String
  | .foreignMod items =>
    match items.head? with
    | some (.fn sig) => some sig.ident
    | _ => none
  | .other => none

/-- Models `try_generate_safe_function_wrapper` (build.rs:367-431): for a
    foreign block whose first item is a function whose name, stripped of
    the `__` prefix, is registered, produce a public wrapper with the
    stripped name, the same inputs and output, and a body forwarding the
    identifier-bound parameters in order to the prefixed name. -/
def tryGenerateSafeFunctionWrapper (item : RItem)
    (safeFunctions : List SafeFunctionWrapper) : Option RItemFn :=
  match item with
  | .foreignMod items =>
    match items.head? with
    | some (.fn sig) =>
      match stripUnderscores sig.ident with
      | some stripped =>
        if safeFunctions.any (fun sf => sf.function_name = stripped) then
          some ⟨true, { sig with ident := stripped }, sig.ident, argNames sig.inputs⟩
        else none
      | none => none
    | _ => none
  | .other => none

/-- Models `generate_safe_function_wrappers` (build.rs:349-362): one
    wrapper per qualifying item. -/
def generateSafeFunctionWrappers (file : List RItem)
    (safeFunctions : List SafeFunctionWrapper) : List RItemFn :=
  file.filterMap (fun item => tryGenerateSafeFunctionWrapper item safeFunctions)

/-- Models the safety-rationale injection of `inject_pxapi_doc`
    (build.rs:455-467): when the matched name is registered, append the
    fixed header and the reasoning lines to the rendered documentation. -/
def appendSafetyDoc (apidoc : String) (safeFunctions : List SafeFunctionWrapper)
    (matchedName : String) : String :=
  match safeFunctions.find? (fun sf => sf.function_name = matchedName) with
  | some sf =>
    apidoc ++ "///\n" ++ "/// ### Safety reasoning (Veecle):\n" ++
      String.join (sf.safety_reasoning.map (fun line => "/// " ++ line ++ "\n"))
  | none => apidoc

/-! ## Proof infrastructure: key-local updates on Json objects.
    These are not source embeddings; they are a common form in which the
    seven field transformations of transform_input are analysed. -/

/-- Apply `f` to the value under `k` when the key is present. -/
def updateKey (j : Json) (k : String) (f : Json → Json) : Json :=
  match j.getKey k with
  | some v => j.setKey k (f v)
  | none => j

/-- Apply a list of key-local updates in order. -/
def applyUpdates (j : Json) : List (String × (Json → Json)) → Json
  | [] => j
  | (k, f) :: rest => applyUpdates (updateKey j k f) rest

/-- The value-level function of `modify_structure`. -/
def mFn (tk : String) : Json → Json := fun v =>
  match v with
  | jarr a => jarr (flattenArr tk a)
  | v => v

/-- The value-level function `transform_description` applies to
    `description.long`. -/
def longFn (tk : String) : Json → Json := fun v =>
  match v with
  | jarr long =>
    jarr [jobj [("type", jstr "PP"),
      ("text", jstr (rustTrim
        (long.foldl (fun acc item => acc ++ blockText tk item) "")))]]
  | v => v

/-- The object-level function `transform_description` applies to
    `description`. -/
def descFn (tk : String) : Json → Json := fun descr =>
  updateKey descr "long" (longFn tk)

/-- The value-level function `transform_cop` applies to one section. -/
def secFn (tk : String) : Json → Json := fun sec =>
  match sec with
  | jarr s =>
    match s.head? with
    | some first =>
      match first.getKey tk with
      | some (jarr targetArray) =>
        jarr (targetArray.foldl
          (fun acc item =>
            match item.asStr with
            | some t => acc ++ [jstr t]
            | none => acc) [])
      | _ => sec
    | none => sec
  | v => v

/-- The object-level function `transform_cop` applies to `cop`. -/
def copFn (tk : String) : Json → Json := fun cop =>
  applyUpdates cop
    [("BeforeCall", secFn tk), ("AfterCall", secFn tk), ("BestPractice", secFn tk)]

/-- The seven key-local updates performed by `transform_input`, in source
    order (transform_input.rs:191-197). -/
def transformList : List (String × (Json → Json)) :=
  [("synopsis", mFn "TC23"), ("arguments", mFn "TC23"), ("appliesTo", mFn "TC23"),
   ("errCodes", mFn "TC23"), ("usage", mFn "TC23"),
   ("description", descFn "TC23"), ("cop", copFn "TC23")]

/-- The five flattenable fields (transform_input.rs:191-195). -/
def flattenKeys : List String :=
  ["synopsis", "arguments", "appliesTo", "errCodes", "usage"]

/-- A key-local function is idempotent at `j` when re-applying it to the
    value it produced there changes nothing. -/
def idemAt (j : Json) (k : String) (f : Json → Json) : Prop :=
  ∀ v, j.getKey k = some v → f (f v) = f v

/-- The suffix-trimming half of `trimChars`. -/
def dropEnd (l : List Char) : List Char :=
  (l.reverse.dropWhile isWs).reverse

/-- Stability condition on one flattenable field: when the first element of
    the field's array holds an array under the primary tag, none of that
    array's elements reintroduce a platform tag. This is the condition
    under which a second flattening changes nothing. -/
def flattenStable (tk : String) (j : Json) (key : String) : Prop :=
  ∀ a, j.getKey key = some (jarr a) →
    ∀ v, (a.head?).bind (fun e => e.getKey tk) = some (jarr v) →
      ∀ e ∈ v, e.getKey tk = none ∧ e.getKey "ARM-CMX" = none

/-! ## Spec-side definitions (for comparison with the embedded code) -/

/-- Written from the claim: per-block contribution to the normalized long
    description — paragraph texts wrapped in newlines, bullet items
    rendered as `"\n * item"`, unrecognized types contribute nothing. -/
def claimBlockText (targetKey : String) (item : Json) : String :=
  match (item.getKey "type").bind asStr with
  | none => ""
  | some itemType =>
    if itemType = "PP" then
      match (item.getKey targetKey).bind asArray with
      | some ppContent =>
        String.join ((ppContent.filterMap asStr).map (fun t => "\n" ++ t ++ "\n"))
      | none =>
        match (item.getKey "text").bind asStr with
        | some t => "\n" ++ t ++ "\n"
        | none => ""
    else if itemType = "BL" then
      match (item.getKey targetKey).bind asArray with
      | some bullets =>
        String.join ((bullets.filterMap asStr).map (fun t => "\n * " ++ t))
      | none =>
        match (item.getKey "text").bind asArray with
        | some bullets =>
          String.join ((bullets.filterMap asStr).map (fun t => "\n * " ++ t))
        | none => ""
    else ""

/-- The amended per-block contribution: as `claimBlockText`, except that a
    bullet-list block taken from the flat "text" key contributes one extra
    trailing newline (transform_input.rs:143). -/
def amendedBlockText (targetKey : String) (item : Json) : String :=
  match (item.getKey "type").bind asStr with
  | none => ""
  | some itemType =>
    if itemType = "PP" then
      match (item.getKey targetKey).bind asArray with
      | some ppContent =>
        String.join ((ppContent.filterMap asStr).map (fun t => "\n" ++ t ++ "\n"))
      | none =>
        match (item.getKey "text").bind asStr with
        | some t => "\n" ++ t ++ "\n"
        | none => ""
    else if itemType = "BL" then
      match (item.getKey targetKey).bind asArray with
      | some bullets =>
        String.join ((bullets.filterMap asStr).map (fun t => "\n * " ++ t))
      | none =>
        match (item.getKey "text").bind asArray with
        | some bullets =>
          String.join ((bullets.filterMap asStr).map (fun t => "\n * " ++ t)) ++ "\n"
        | none => ""
    else ""

/-! ## Concrete documents used as counterexamples -/

/-- A document whose synopsis field carries a platform tag nested inside
    the primary tag's value. -/
def docNested : Json :=
  jobj [("synopsis", jarr [jobj [("TC23", jarr [jobj [("TC23", jstr "x")]])]])]

/-- A document whose errCodes array has a tag-free first element and a
    later element tagged "ARM-CMX". -/
def docLateArm : Json :=
  jobj [("errCodes", jarr [jobj [("x", jnum 1)], jobj [("ARM-CMX", jstr "y")]])]

/-- A document whose long description has a flat bullet list followed by a
    flat paragraph. -/
def docFlatBL : Json :=
  jobj [("description", jobj [("short", jstr "s"),
    ("long", jarr [jobj [("type", jstr "BL"), ("text", jarr [jstr "a"])],
                   jobj [("type", jstr "PP"), ("text", jstr "b")]])])]

/-! ## Lemmas: association-list and key-update algebra -/

theorem lookup_setEntries_self (k : String) (v : Json) :
    ∀ fields : List (String × Json),
      lookupEntries k (setEntries k v fields) =
        (lookupEntries k fields).map (fun _ => v)
  | [] => rfl
  | (k', v') :: rest => by
    by_cases h : k' = k
    · subst h
      simp [setEntries, lookupEntries]
    · simp [setEntries, lookupEntries, h, lookup_setEntries_self k v rest]

theorem lookup_setEntries_ne (k : String) (v : Json) (k' : String) (h : k' ≠ k) :
    ∀ fields : List (String × Json),
      lookupEntries k' (setEntries k v fields) = lookupEntries k' fields
  | [] => rfl
  | (k'', v'') :: rest => by
    by_cases hk : k'' = k
    · subst hk
      simp [setEntries, lookupEntries, Ne.symm h]
    · simp [setEntries, lookupEntries, hk, lookup_setEntries_ne k v k' h rest]

theorem setEntries_of_lookup (k : String) (v : Json) :
    ∀ fields : List (String × Json), lookupEntries k fields = some v →
      setEntries k v fields = fields
  | [], h => by simp [lookupEntries] at h
  | (k', v') :: rest, h => by
    by_cases hk : k' = k
    · simp [lookupEntries, hk] at h
      simp [setEntries, hk, h]
    · simp [lookupEntries, hk] at h
      simp [setEntries, hk, setEntries_of_lookup k v rest h]

theorem setEntries_setEntries (k : String) (v w : Json) :
    ∀ fields : List (String × Json),
      setEntries k w (setEntries k v fields) = setEntries k w fields
  | [] => rfl
  | (k', v') :: rest => by
    by_cases hk : k' = k
    · simp [setEntries, hk]
    · simp [setEntries, hk, setEntries_setEntries k v w rest]

theorem setEntries_comm (k1 k2 : String) (v1 v2 : Json) (h : k1 ≠ k2) :
    ∀ fields : List (String × Json),
      setEntries k1 v1 (setEntries k2 v2 fields) =
        setEntries k2 v2 (setEntries k1 v1 fields)
  | [] => rfl
  | (k', v') :: rest => by
    by_cases h1 : k' = k1
    · subst h1
      simp [setEntries, h, Ne.symm h]
    · by_cases h2 : k' = k2
      · subst h2
        simp [setEntries, h1, h]
      · simp [setEntries, h1, h2, setEntries_comm k1 k2 v1 v2 h rest]

theorem getKey_setKey_self (j : Json) (k : String) (v : Json) :
    (j.setKey k v).getKey k = (j.getKey k).map (fun _ => v) := by
  cases j <;> simp [Json.setKey, Json.getKey]
  exact lookup_setEntries_self k v _

theorem getKey_setKey_ne (j : Json) (k : String) (v : Json) (k' : String)
    (h : k' ≠ k) : (j.setKey k v).getKey k' = j.getKey k' := by
  cases j <;> simp [Json.setKey, Json.getKey]
  exact lookup_setEntries_ne k v k' h _

theorem setKey_of_getKey (j : Json) (k : String) (v : Json)
    (h : j.getKey k = some v) : j.setKey k v = j := by
  cases j <;> simp [Json.setKey, Json.getKey] at *
  exact setEntries_of_lookup k v _ h

theorem setKey_setKey (j : Json) (k : String) (v w : Json) :
    (j.setKey k v).setKey k w = j.setKey k w := by
  cases j <;> simp [Json.setKey]
  exact setEntries_setEntries k v w _

theorem setKey_comm (j : Json) (k1 k2 : String) (v1 v2 : Json) (h : k1 ≠ k2) :
    (j.setKey k1 v1).setKey k2 v2 = (j.setKey k2 v2).setKey k1 v1 := by
  cases j <;> simp [Json.setKey]
  exact (setEntries_comm k1 k2 v1 v2 h _).symm

theorem getKey_updateKey_ne (j : Json) (k : String) (f : Json → Json)
    (k' : String) (h : k' ≠ k) : (updateKey j k f).getKey k' = j.getKey k' := by
  cases hv : j.getKey k with
  | none => simp [updateKey, hv]
  | some v => simp [updateKey, hv, getKey_setKey_ne j k _ k' h]

theorem getKey_updateKey_self (j : Json) (k : String) (f : Json → Json) :
    (updateKey j k f).getKey k = (j.getKey k).map f := by
  cases hv : j.getKey k with
  | none => simp [updateKey, hv]
  | some v => simp [updateKey, hv, getKey_setKey_self]

theorem updateKey_idem (j : Json) (k : String) (f : Json → Json)
    (h : idemAt j k f) : updateKey (updateKey j k f) k f = updateKey j k f := by
  cases hv : j.getKey k with
  | none =>
    have h1 : updateKey j k f = j := by simp [updateKey, hv]
    rw [h1]
    exact h1
  | some v =>
    have h1 : updateKey j k f = j.setKey k (f v) := by simp [updateKey, hv]
    have h2 : (j.setKey k (f v)).getKey k = some (f v) := by
      rw [getKey_setKey_self, hv]; rfl
    rw [h1]
    simp [updateKey, h2, h v hv, setKey_setKey]

theorem updateKey_comm (j : Json) (k1 k2 : String) (f1 f2 : Json → Json)
    (h : k1 ≠ k2) :
    updateKey (updateKey j k1 f1) k2 f2 = updateKey (updateKey j k2 f2) k1 f1 := by
  cases h1 : j.getKey k1 with
  | none =>
    have e1 : updateKey j k1 f1 = j := by simp [updateKey, h1]
    cases h2 : j.getKey k2 with
    | none =>
      have e2 : updateKey j k2 f2 = j := by simp [updateKey, h2]
      rw [e1, e2]
      exact e1.symm
    | some v2 =>
      have e2 : updateKey j k2 f2 = j.setKey k2 (f2 v2) := by
        simp [updateKey, h2]
      have g1 : (j.setKey k2 (f2 v2)).getKey k1 = none := by
        rw [getKey_setKey_ne j k2 _ k1 h, h1]
      rw [e1, e2]
      simp [updateKey, g1]
  | some v1 =>
    have e1 : updateKey j k1 f1 = j.setKey k1 (f1 v1) := by
      simp [updateKey, h1]
    cases h2 : j.getKey k2 with
    | none =>
      have e2 : updateKey j k2 f2 = j := by simp [updateKey, h2]
      have g2 : (j.setKey k1 (f1 v1)).getKey k2 = none := by
        rw [getKey_setKey_ne j k1 _ k2 (Ne.symm h), h2]
      rw [e1, e2, e1]
      simp [updateKey, g2]
    | some v2 =>
      have e2 : updateKey j k2 f2 = j.setKey k2 (f2 v2) := by
        simp [updateKey, h2]
      have g2 : (j.setKey k1 (f1 v1)).getKey k2 = some v2 := by
        rw [getKey_setKey_ne j k1 _ k2 (Ne.symm h), h2]
      have g1 : (j.setKey k2 (f2 v2)).getKey k1 = some v1 := by
        rw [getKey_setKey_ne j k2 _ k1 h, h1]
      rw [e1, e2]
      simp [updateKey, g1, g2]
      exact setKey_comm j k1 k2 (f1 v1) (f2 v2) h

theorem updateKey_applyUpdates_comm (k : String) (f : Json → Json) :
    ∀ (L : List (String × (Json → Json))) (j : Json),
      (∀ p ∈ L, p.1 ≠ k) →
      updateKey (applyUpdates j L) k f = applyUpdates (updateKey j k f) L
  | [], j, _ => rfl
  | (k', f') :: L', j, h => by
    have hk : k' ≠ k := h (k', f') (List.mem_cons_self _ _)
    have hrest : ∀ p ∈ L', p.1 ≠ k := fun p hp => h p (List.mem_cons_of_mem _ hp)
    show updateKey (applyUpdates (updateKey j k' f') L') k f
        = applyUpdates (updateKey (updateKey j k f) k' f') L'
    rw [updateKey_applyUpdates_comm k f L' (updateKey j k' f') hrest,
        updateKey_comm j k' k f' f hk]

theorem applyUpdates_idem :
    ∀ (L : List (String × (Json → Json))) (j : Json),
      L.Pairwise (fun p q => p.1 ≠ q.1) →
      (∀ p ∈ L, idemAt j p.1 p.2) →
      applyUpdates (applyUpdates j L) L = applyUpdates j L
  | [], j, _, _ => rfl
  | (k, f) :: L', j, hpw, hidem => by
    have hkL : ∀ p ∈ L', p.1 ≠ k := by
      intro p hp
      exact Ne.symm ((List.pairwise_cons.mp hpw).1 p hp)
    have hpw' : L'.Pairwise (fun p q => p.1 ≠ q.1) := (List.pairwise_cons.mp hpw).2
    show applyUpdates (updateKey (applyUpdates (updateKey j k f) L') k f) L' = _
    rw [updateKey_applyUpdates_comm k f L' (updateKey j k f) hkL,
        updateKey_idem j k f (hidem (k, f) (List.mem_cons_self _ _))]
    exact applyUpdates_idem L' (updateKey j k f) hpw'
      (fun p hp v hv => hidem p (List.mem_cons_of_mem _ hp) v
        (by rwa [getKey_updateKey_ne j k f p.1 (hkL p hp)] at hv))

theorem getKey_applyUpdates_notMem :
    ∀ (L : List (String × (Json → Json))) (j : Json) (k : String),
      (∀ p ∈ L, p.1 ≠ k) → (applyUpdates j L).getKey k = j.getKey k
  | [], _, _, _ => rfl
  | (k', f') :: L', j, k, h => by
    show (applyUpdates (updateKey j k' f') L').getKey k = _
    rw [getKey_applyUpdates_notMem L' _ k
          (fun p hp => h p (List.mem_cons_of_mem _ hp)),
        getKey_updateKey_ne j k' f' k
          (Ne.symm (h (k', f') (List.mem_cons_self _ _)))]

theorem getKey_applyUpdates_mem :
    ∀ (L : List (String × (Json → Json))) (j : Json) (k : String)
      (f : Json → Json),
      L.Pairwise (fun p q => p.1 ≠ q.1) → (k, f) ∈ L →
      (applyUpdates j L).getKey k = (j.getKey k).map f
  | [], _, _, _, _, hmem => absurd hmem (List.not_mem_nil _)
  | (k', f') :: L', j, k, f, hpw, hmem => by
    rcases List.mem_cons.mp hmem with heq | hmem'
    · injection heq with hk hf
      subst hk; subst hf
      show (applyUpdates (updateKey j k f) L').getKey k = _
      rw [getKey_applyUpdates_notMem L' _ k
            (fun p hp => Ne.symm ((List.pairwise_cons.mp hpw).1 p hp)),
          getKey_updateKey_self j k f]
    · have hk'k : k' ≠ k := (List.pairwise_cons.mp hpw).1 (k, f) hmem'
      show (applyUpdates (updateKey j k' f') L').getKey k = _
      rw [getKey_applyUpdates_mem L' _ k f (List.pairwise_cons.mp hpw).2 hmem',
          getKey_updateKey_ne j k' f' k (Ne.symm hk'k)]

/-! ## Lemmas: Rust trim -/

theorem trimChars_eq_dropEnd_dropWhile (l : List Char) :
    trimChars l = dropEnd (l.dropWhile isWs) := rfl

theorem dropWhile_head_not {p : Char → Bool} (l : List Char) {c : Char}
    {rest : List Char} (h : l.dropWhile p = c :: rest) : p c = false := by
  induction l with
  | nil => simp [List.dropWhile] at h
  | cons a l' ih =>
    by_cases ha : p a
    · rw [List.dropWhile_cons_of_pos ha] at h
      exact ih h
    · rw [List.dropWhile_cons_of_neg ha] at h
      injection h with h1 _
      subst h1
      simpa using ha

theorem dropWhile_eq_self_of_head {p : Char → Bool} (l : List Char)
    (h : ∀ c rest, l = c :: rest → p c = false) : l.dropWhile p = l := by
  cases l with
  | nil => rfl
  | cons c rest =>
    rw [List.dropWhile_cons_of_neg]
    simp [h c rest rfl]

theorem dropEnd_append_eq (l : List Char) :
    dropEnd l ++ (l.reverse.takeWhile isWs).reverse = l := by
  unfold dropEnd
  rw [← List.reverse_append, List.takeWhile_append_dropWhile, List.reverse_reverse]

theorem dropEnd_head (l : List Char) {c : Char} {rest : List Char}
    (h : dropEnd l = c :: rest) : ∃ t, l = c :: t := by
  have := dropEnd_append_eq l
  rw [h] at this
  exact ⟨rest ++ (l.reverse.takeWhile isWs).reverse, this.symm⟩

theorem dropEnd_idempotent (l : List Char) : dropEnd (dropEnd l) = dropEnd l := by
  unfold dropEnd
  rw [List.reverse_reverse, List.dropWhile_idempotent]

theorem dropEnd_snoc_ws (l : List Char) (c : Char) (h : isWs c = true) :
    dropEnd (l ++ [c]) = dropEnd l := by
  unfold dropEnd
  rw [List.reverse_append]
  simp [List.dropWhile_cons_of_pos, h]

theorem trimChars_idem (l : List Char) : trimChars (trimChars l) = trimChars l := by
  rw [trimChars_eq_dropEnd_dropWhile, trimChars_eq_dropEnd_dropWhile]
  have hhead : (dropEnd (l.dropWhile isWs)).dropWhile isWs
      = dropEnd (l.dropWhile isWs) := by
    apply dropWhile_eq_self_of_head
    intro c rest hc
    obtain ⟨t, ht⟩ := dropEnd_head _ hc
    exact dropWhile_head_not _ ht
  rw [hhead, dropEnd_idempotent]

theorem dropWhile_nil_of_all {p : Char → Bool} :
    ∀ l : List Char, (∀ c ∈ l, p c = true) → l.dropWhile p = []
  | [], _ => rfl
  | c :: rest, h => by
    rw [List.dropWhile_cons_of_pos (h c (List.mem_cons_self _ _))]
    exact dropWhile_nil_of_all rest (fun c hc => h c (List.mem_cons_of_mem _ hc))

theorem trimChars_wrap_newline (m : List Char) :
    trimChars ('\n' :: (m ++ ['\n'])) = trimChars m := by
  rw [trimChars_eq_dropEnd_dropWhile, trimChars_eq_dropEnd_dropWhile]
  rw [List.dropWhile_cons_of_pos (by decide : isWs '\n' = true)]
  by_cases hall : ∀ c ∈ m, isWs c = true
  · rw [dropWhile_nil_of_all m hall]
    have h1 : (m ++ ['\n']).dropWhile isWs = [] := by
      apply dropWhile_nil_of_all
      intro c hc
      rcases List.mem_append.mp hc with h | h
      · exact hall c h
      · simp at h
        subst h
        decide
    rw [h1]
  · push_neg at hall
    have h2 : (m ++ ['\n']).dropWhile isWs = m.dropWhile isWs ++ ['\n'] := by
      rw [List.dropWhile_append]
      have : ¬ (m.dropWhile isWs).isEmpty = true := by
        intro hemp
        obtain ⟨c, hc, hpc⟩ := hall
        have : c ∈ m.dropWhile isWs ∨ c ∈ m.takeWhile isWs := by
          have := List.takeWhile_append_dropWhile (p := isWs) (l := m)
          rw [← this] at hc
          rcases List.mem_append.mp hc with h | h
          · exact Or.inr h
          · exact Or.inl h
        rcases this with h | h
        · rw [List.isEmpty_iff.mp hemp] at h
          exact absurd h (List.not_mem_nil c)
        · exact hpc (List.mem_takeWhile_imp h)
      simp only [Bool.not_eq_true] at this
      simp [this]
    rw [h2, dropEnd_snoc_ws _ _ (by decide)]

theorem trimChars_rustTrim (s : String) :
    trimChars ('\n' :: (trimChars s.data ++ ['\n'])) = trimChars s.data := by
  rw [trimChars_wrap_newline, trimChars_idem]

/-! ## Lemmas: the seven transforms as key-local updates -/

theorem modifyStructure_eq_updateKey (j : Json) (key tk : String) :
    modifyStructure j key tk = updateKey j key (mFn tk) := by
  cases hv : j.getKey key with
  | none => simp [modifyStructure, updateKey, hv]
  | some v =>
    cases v with
    | jarr a => simp [modifyStructure, updateKey, hv, mFn]
    | jnull => simp [modifyStructure, updateKey, hv, mFn, setKey_of_getKey j key _ hv]
    | jbool b => simp [modifyStructure, updateKey, hv, mFn, setKey_of_getKey j key _ hv]
    | jnum n => simp [modifyStructure, updateKey, hv, mFn, setKey_of_getKey j key _ hv]
    | jstr s => simp [modifyStructure, updateKey, hv, mFn, setKey_of_getKey j key _ hv]
    | jobj o => simp [modifyStructure, updateKey, hv, mFn, setKey_of_getKey j key _ hv]

theorem transformDescription_eq_updateKey (j : Json) (tk : String) :
    transformDescription j tk = updateKey j "description" (descFn tk) := by
  cases hd : j.getKey "description" with
  | none => simp [transformDescription, updateKey, hd]
  | some descr =>
    cases hl : descr.getKey "long" with
    | none =>
      have h1 : descFn tk descr = descr := by simp [descFn, updateKey, hl]
      simp [transformDescription, updateKey, hd, hl, Json.asArray, h1,
        setKey_of_getKey j "description" descr hd]
    | some lv =>
      cases lv with
      | jarr long =>
        have h1 : descFn tk descr =
            descr.setKey "long" (longFn tk (jarr long)) := by
          simp [descFn, updateKey, hl]
        simp [transformDescription, updateKey, hd, hl, Json.asArray, h1, longFn]
      | jnull =>
        have h1 : descFn tk descr = descr := by
          simp [descFn, updateKey, hl, longFn, setKey_of_getKey descr "long" _ hl]
        simp [transformDescription, updateKey, hd, hl, Json.asArray, h1,
          setKey_of_getKey j "description" descr hd]
      | jbool b =>
        have h1 : descFn tk descr = descr := by
          simp [descFn, updateKey, hl, longFn, setKey_of_getKey descr "long" _ hl]
        simp [transformDescription, updateKey, hd, hl, Json.asArray, h1,
          setKey_of_getKey j "description" descr hd]
      | jnum n =>
        have h1 : descFn tk descr = descr := by
          simp [descFn, updateKey, hl, longFn, setKey_of_getKey descr "long" _ hl]
        simp [transformDescription, updateKey, hd, hl, Json.asArray, h1,
          setKey_of_getKey j "description" descr hd]
      | jstr s =>
        have h1 : descFn tk descr = descr := by
          simp [descFn, updateKey, hl, longFn, setKey_of_getKey descr "long" _ hl]
        simp [transformDescription, updateKey, hd, hl, Json.asArray, h1,
          setKey_of_getKey j "description" descr hd]
      | jobj o =>
        have h1 : descFn tk descr = descr := by
          simp [descFn, updateKey, hl, longFn, setKey_of_getKey descr "long" _ hl]
        simp [transformDescription, updateKey, hd, hl, Json.asArray, h1,
          setKey_of_getKey j "description" descr hd]

theorem copStep_eq_updateKey (tk : String) (cop : Json) (key : String) :
    copStep tk cop key = updateKey cop key (secFn tk) := by
  cases hv : cop.getKey key with
  | none => simp [copStep, updateKey, hv]
  | some v =>
    cases v with
    | jarr sec =>
      cases hh : sec.head? with
      | none =>
        have h1 : secFn tk (jarr sec) = jarr sec := by simp [secFn, hh]
        simp [copStep, updateKey, hv, hh, h1, setKey_of_getKey cop key _ hv]
      | some first =>
        cases ht : first.getKey tk with
        | none =>
          have h1 : secFn tk (jarr sec) = jarr sec := by simp [secFn, hh, ht]
          simp [copStep, updateKey, hv, hh, ht, h1, setKey_of_getKey cop key _ hv]
        | some tv =>
          cases tv with
          | jarr targetArray =>
            have h1 : secFn tk (jarr sec) = jarr (targetArray.foldl
                (fun acc item =>
                  match item.asStr with
                  | some t => acc ++ [jstr t]
                  | none => acc) []) := by
              simp [secFn, hh, ht]
            simp [copStep, updateKey, hv, hh, ht, h1]
          | jnull =>
            have h1 : secFn tk (jarr sec) = jarr sec := by simp [secFn, hh, ht]
            simp [copStep, updateKey, hv, hh, ht, h1, setKey_of_getKey cop key _ hv]
          | jbool b =>
            have h1 : secFn tk (jarr sec) = jarr sec := by simp [secFn, hh, ht]
            simp [copStep, updateKey, hv, hh, ht, h1, setKey_of_getKey cop key _ hv]
          | jnum n =>
            have h1 : secFn tk (jarr sec) = jarr sec := by simp [secFn, hh, ht]
            simp [copStep, updateKey, hv, hh, ht, h1, setKey_of_getKey cop key _ hv]
          | jstr s =>
            have h1 : secFn tk (jarr sec) = jarr sec := by simp [secFn, hh, ht]
            simp [copStep, updateKey, hv, hh, ht, h1, setKey_of_getKey cop key _ hv]
          | jobj o =>
            have h1 : secFn tk (jarr sec) = jarr sec := by simp [secFn, hh, ht]
            simp [copStep, updateKey, hv, hh, ht, h1, setKey_of_getKey cop key _ hv]
    | jnull => simp [copStep, updateKey, hv, secFn, setKey_of_getKey cop key _ hv]
    | jbool b => simp [copStep, updateKey, hv, secFn, setKey_of_getKey cop key _ hv]
    | jnum n => simp [copStep, updateKey, hv, secFn, setKey_of_getKey cop key _ hv]
    | jstr s => simp [copStep, updateKey, hv, secFn, setKey_of_getKey cop key _ hv]
    | jobj o => simp [copStep, updateKey, hv, secFn, setKey_of_getKey cop key _ hv]

theorem transformCop_eq_updateKey (j : Json) (tk : String) :
    transformCop j tk = updateKey j "cop" (copFn tk) := by
  cases hv : j.getKey "cop" with
  | none => simp [transformCop, updateKey, hv]
  | some cop =>
    have hfn : copFn tk cop =
        copStep tk (copStep tk (copStep tk cop "BeforeCall") "AfterCall")
          "BestPractice" := by
      simp [copFn, applyUpdates, copStep_eq_updateKey]
    simp [transformCop, updateKey, hv, hfn]

/-! ## Lemmas: idempotence of the individual field transformations -/

theorem flattenArr_of_arr (tk : String) (a target : List Json)
    (h : (a.head?).bind (fun entry => entry.getKey tk) = some (jarr target)) :
    flattenArr tk a = target := by
  unfold flattenArr
  rw [h]

theorem flattenArr_of_str (tk : String) (a : List Json) (s : String)
    (h : (a.head?).bind (fun entry => entry.getKey tk) = some (jstr s)) :
    flattenArr tk a = [jstr s] := by
  unfold flattenArr
  rw [h]

theorem flattenArr_nil (tk : String) : flattenArr tk [] = [] := rfl

theorem flattenArr_of_no_arm (tk : String) (a : List Json)
    (hhead : ∀ target, (a.head?).bind (fun e => e.getKey tk) ≠ some (jarr target))
    (hheads : ∀ s, (a.head?).bind (fun e => e.getKey tk) ≠ some (jstr s))
    (harm : ∀ e ∈ a, e.getKey "ARM-CMX" = none) :
    flattenArr tk a = a := by
  have hany : a.any (fun entry => (entry.getKey "ARM-CMX").isSome) = false := by
    rw [List.any_eq_false]
    intro e he
    rw [harm e he]
    simp
  unfold flattenArr
  cases hb : (a.head?).bind (fun entry => entry.getKey tk) with
  | none => rw [hany]; rfl
  | some v =>
    cases v with
    | jarr t => exact absurd hb (hhead t)
    | jstr s => exact absurd hb (hheads s)
    | jnull => rw [hany]; rfl
    | jbool b => rw [hany]; rfl
    | jnum n => rw [hany]; rfl
    | jobj o => rw [hany]; rfl

theorem flattenArr_fallback_idem (tk : String) (a : List Json)
    (hfb : flattenArr tk a =
      if a.any (fun entry => (entry.getKey "ARM-CMX").isSome) then [] else a) :
    flattenArr tk (flattenArr tk a) = flattenArr tk a := by
  by_cases hany : a.any (fun entry => (entry.getKey "ARM-CMX").isSome) = true
  · have h2 : flattenArr tk a = [] := by rw [hfb, if_pos hany]
    rw [h2]
    rfl
  · have h2 : flattenArr tk a = a := by
      rw [hfb, if_neg hany]
    rw [h2]
    exact h2

theorem flattenArr_flattenArr (tk : String) (a : List Json)
    (h : ∀ v, (a.head?).bind (fun e => e.getKey tk) = some (jarr v) →
        ∀ e ∈ v, e.getKey tk = none ∧ e.getKey "ARM-CMX" = none) :
    flattenArr tk (flattenArr tk a) = flattenArr tk a := by
  cases hb : (a.head?).bind (fun entry => entry.getKey tk) with
  | some v =>
    cases v with
    | jarr target =>
      rw [flattenArr_of_arr tk a target hb]
      have hc := h target hb
      cases target with
      | nil => rfl
      | cons e rest =>
        apply flattenArr_of_no_arm
        · intro t ht
          simp at ht
          rw [(hc e (List.mem_cons_self _ _)).1] at ht
          exact Option.noConfusion ht
        · intro s hs
          simp at hs
          rw [(hc e (List.mem_cons_self _ _)).1] at hs
          exact Option.noConfusion hs
        · intro x hx
          exact (hc x hx).2
    | jstr s =>
      rw [flattenArr_of_str tk a s hb]
      apply flattenArr_of_no_arm
      · intro t ht
        simp [Json.getKey] at ht
      · intro t ht
        simp [Json.getKey] at ht
      · intro x hx
        simp at hx
        subst hx
        rfl
    | jnull => exact flattenArr_fallback_idem tk a (by unfold flattenArr; rw [hb])
    | jbool b => exact flattenArr_fallback_idem tk a (by unfold flattenArr; rw [hb])
    | jnum n => exact flattenArr_fallback_idem tk a (by unfold flattenArr; rw [hb])
    | jobj o => exact flattenArr_fallback_idem tk a (by unfold flattenArr; rw [hb])
  | none => exact flattenArr_fallback_idem tk a (by unfold flattenArr; rw [hb])

theorem blockText_newPP (t : String) :
    blockText "TC23" (jobj [("type", jstr "PP"), ("text", jstr t)])
      = "\n" ++ t ++ "\n" := rfl

theorem rustTrim_wrap (t0 : String) :
    rustTrim ("" ++ ("\n" ++ rustTrim t0 ++ "\n")) = rustTrim t0 := by
  unfold rustTrim
  congr 1
  have hdata : ("" ++ ("\n" ++ (⟨trimChars t0.data⟩ : String) ++ "\n")).data
      = '\n' :: (trimChars t0.data ++ ['\n']) := by
    simp [String.data_append]
  rw [hdata]
  exact trimChars_rustTrim t0

theorem longFn_longFn (v : Json) :
    longFn "TC23" (longFn "TC23" v) = longFn "TC23" v := by
  cases v with
  | jarr long =>
    simp only [longFn, List.foldl, blockText_newPP, rustTrim_wrap]
  | jnull => rfl
  | jbool b => rfl
  | jnum n => rfl
  | jstr s => rfl
  | jobj o => rfl

theorem secFold_eq (ta : List Json) : ∀ acc : List Json,
    ta.foldl (fun acc item =>
      match item.asStr with
      | some t => acc ++ [jstr t]
      | none => acc) acc = acc ++ (ta.filterMap asStr).map jstr := by
  induction ta with
  | nil => intro acc; simp
  | cons x rest ih =>
    intro acc
    cases hx : x.asStr with
    | some t => simp [List.foldl, hx, ih, List.filterMap_cons]
    | none => simp [List.foldl, hx, ih, List.filterMap_cons]

theorem secFn_secFn (v : Json) :
    secFn "TC23" (secFn "TC23" v) = secFn "TC23" v := by
  cases v with
  | jarr s =>
    cases hh : s.head? with
    | none =>
      have h1 : secFn "TC23" (jarr s) = jarr s := by simp [secFn, hh]
      rw [h1]
      exact h1
    | some first =>
      cases ht : first.getKey "TC23" with
      | none =>
        have h1 : secFn "TC23" (jarr s) = jarr s := by simp [secFn, hh, ht]
        rw [h1]
        exact h1
      | some tv =>
        cases tv with
        | jarr ta =>
          have h1 : secFn "TC23" (jarr s)
              = jarr ((ta.filterMap asStr).map jstr) := by
            simp [secFn, hh, ht, secFold_eq]
          rw [h1]
          cases hfm : ta.filterMap asStr with
          | nil => simp [secFn]
          | cons t0 rest => simp [secFn, Json.getKey]
        | jnull =>
          have h1 : secFn "TC23" (jarr s) = jarr s := by simp [secFn, hh, ht]
          rw [h1]
          exact h1
        | jbool b =>
          have h1 : secFn "TC23" (jarr s) = jarr s := by simp [secFn, hh, ht]
          rw [h1]
          exact h1
        | jnum n =>
          have h1 : secFn "TC23" (jarr s) = jarr s := by simp [secFn, hh, ht]
          rw [h1]
          exact h1
        | jstr t =>
          have h1 : secFn "TC23" (jarr s) = jarr s := by simp [secFn, hh, ht]
          rw [h1]
          exact h1
        | jobj o =>
          have h1 : secFn "TC23" (jarr s) = jarr s := by simp [secFn, hh, ht]
          rw [h1]
          exact h1
  | jnull => rfl
  | jbool b => rfl
  | jnum n => rfl
  | jstr t => rfl
  | jobj o => rfl

theorem descFn_descFn (descr : Json) :
    descFn "TC23" (descFn "TC23" descr) = descFn "TC23" descr :=
  updateKey_idem descr "long" (longFn "TC23") (fun v _ => longFn_longFn v)

theorem copFn_copFn (cop : Json) :
    copFn "TC23" (copFn "TC23" cop) = copFn "TC23" cop := by
  apply applyUpdates_idem
  · constructor
    · intro q hq
      simp [List.mem_cons] at hq
      rcases hq with h | h <;> subst h <;> decide
    · constructor
      · intro q hq
        simp [List.mem_cons] at hq
        subst hq
        decide
      · constructor
        · intro q hq
          exact absurd hq (List.not_mem_nil q)
        · constructor
  · intro p hp v _
    simp [List.mem_cons] at hp
    rcases hp with h | h | h <;> rw [h] <;> exact secFn_secFn v

theorem transformJson_eq_applyUpdates (j : Json) :
    transformJson j = applyUpdates j transformList := by
  show transformCop
      (transformDescription
        (modifyStructure
          (modifyStructure
            (modifyStructure
              (modifyStructure
                (modifyStructure j "synopsis" "TC23")
                "arguments" "TC23")
              "appliesTo" "TC23")
            "errCodes" "TC23")
          "usage" "TC23")
        "TC23")
      "TC23" = _
  rw [modifyStructure_eq_updateKey, modifyStructure_eq_updateKey,
      modifyStructure_eq_updateKey, modifyStructure_eq_updateKey,
      modifyStructure_eq_updateKey, transformDescription_eq_updateKey,
      transformCop_eq_updateKey]
  rfl

/-! ## Further helper lemmas -/

theorem trimChars_of_no_ws (l : List Char) (h : ∀ c ∈ l, isWs c = false) :
    trimChars l = l := by
  unfold trimChars
  rw [dropWhile_eq_self_of_head l
      (fun c rest hc => h c (by rw [hc]; exact List.mem_cons_self _ _)),
    dropWhile_eq_self_of_head l.reverse
      (fun c rest hc => h c (List.mem_reverse.mp
        (by rw [hc]; exact List.mem_cons_self _ _))),
    List.reverse_reverse]

theorem rustTrim_of_no_ws (s : String) (h : ∀ c ∈ s.data, isWs c = false) :
    rustTrim s = s := by
  unfold rustTrim
  rw [trimChars_of_no_ws s.data h]

/-! ## Claim C1 -/

/-- C1, counterexample: on the synopsis string
    `"int PxFoo(int a, char * b)"`, `convert_c_func_to_rust` renders the
    three-token argument `char * b` as `*: char b` (the middle token is
    used as the name), not as `b: char *` as the claim's example states. -/
theorem c1_counterexample :
    convertCFuncToRust "int PxFoo(int a, char * b)"
      = .ok "fn PxFoo(a: int, *: char b) -> int;"
    ∧ "fn PxFoo(a: int, *: char b) -> int;"
      ≠ "fn PxFoo(a: int, b: char *) -> int;" :=
  ⟨rfl, by decide⟩

/-- C1 (amended): the synopsis translation renders
    `"int PxFoo(int a, char * b)"` with parameters `a: int, *: char b` and
    return type `-> int`, and `"void PxBar(void)"` with no parameters and
    no return-type suffix; in general a two-token argument `[t, n]`
    renders as `n: t` and a three-token argument `[t, n, t2]` renders as
    `n: t t2` — the middle token is always used as the name — while any
    other token count contributes nothing. -/
theorem c1_synopsis_translation :
    convertCFuncToRust "int PxFoo(int a, char * b)"
      = .ok "fn PxFoo(a: int, *: char b) -> int;"
    ∧ convertCFuncToRust "void PxBar(void)" = .ok "fn PxBar() ;"
    ∧ (∀ t n : String, (∀ c ∈ t.data, isWs c = false) →
        (∀ c ∈ n.data, isWs c = false) →
        renderTokens [t, n] = some (n ++ ": " ++ t))
    ∧ (∀ t n t2 : String, (∀ c ∈ t.data, isWs c = false) →
        (∀ c ∈ n.data, isWs c = false) → (∀ c ∈ t2.data, isWs c = false) →
        renderTokens [t, n, t2] = some (n ++ ": " ++ t ++ " " ++ t2))
    ∧ (∀ tokens : List String, tokens.length ≠ 2 → tokens.length ≠ 3 →
        renderTokens tokens = none) := by
  refine ⟨rfl, rfl, ?_, ?_, ?_⟩
  · intro t n ht hn
    show some (rustTrim n ++ ": " ++ rustTrim t) = _
    rw [rustTrim_of_no_ws t ht, rustTrim_of_no_ws n hn]
  · intro t n t2 ht hn ht2
    show some (rustTrim n ++ ": " ++ rustTrim t ++ " " ++ rustTrim t2) = _
    rw [rustTrim_of_no_ws t ht, rustTrim_of_no_ws n hn, rustTrim_of_no_ws t2 ht2]
  · intro tokens h2 h3
    match tokens with
    | [] => rfl
    | [_] => rfl
    | [_, _] => exact absurd rfl h2
    | [_, _, _] => exact absurd rfl h3
    | _ :: _ :: _ :: _ :: _ => rfl

/-- C1, witness: the general token rules applied at concrete tokens. -/
theorem c1_synopsis_translation_witness :
    renderTokens ["int", "a"] = some ("a" ++ ": " ++ "int")
    ∧ renderTokens ["char", "*", "b"]
        = some ("*" ++ ": " ++ "char" ++ " " ++ "b")
    ∧ renderTokens ["int"] = none :=
  ⟨c1_synopsis_translation.2.2.1 "int" "a" (by decide) (by decide),
   c1_synopsis_translation.2.2.2.1 "char" "*" "b" (by decide) (by decide)
     (by decide),
   c1_synopsis_translation.2.2.2.2 ["int"] (by decide) (by decide)⟩

/-! ## Claim C3 -/

theorem transformList_pairwise : transformList.Pairwise (fun p q => p.1 ≠ q.1) := by
  decide

theorem mem_transformList (key : String) (h : key ∈ flattenKeys) :
    (key, mFn "TC23") ∈ transformList := by
  simp [flattenKeys] at h
  unfold transformList
  rcases h with h | h | h | h | h <;> subst h
  · exact List.Mem.head _
  · exact List.Mem.tail _ (List.Mem.head _)
  · exact List.Mem.tail _ (List.Mem.tail _ (List.Mem.head _))
  · exact List.Mem.tail _ (List.Mem.tail _ (List.Mem.tail _ (List.Mem.head _)))
  · exact List.Mem.tail _ (List.Mem.tail _ (List.Mem.tail _ (List.Mem.tail _
      (List.Mem.head _))))

theorem getKey_transformJson (j : Json) (key : String) (h : key ∈ flattenKeys) :
    (transformJson j).getKey key = (j.getKey key).map (mFn "TC23") := by
  rw [transformJson_eq_applyUpdates]
  exact getKey_applyUpdates_mem transformList j key (mFn "TC23")
    transformList_pairwise (mem_transformList key h)

/-- C3: for every flattenable field (synopsis, arguments, appliesTo,
    errCodes, usage), normalization maps the value
    `[{"TC23": ["a","b",…]}]` to `["a","b",…]`, the value `[{"TC23": "a"}]`
    to `["a"]`, and an array whose elements all carry the "ARM-CMX" tag and
    no "TC23" tag to the empty array. -/
theorem c3_flatten_shapes :
    ∀ key ∈ flattenKeys, ∀ j : Json,
      (∀ vs : List Json,
        j.getKey key = some (jarr [jobj [("TC23", jarr vs)]]) →
        (transformJson j).getKey key = some (jarr vs))
      ∧ (∀ s : String,
        j.getKey key = some (jarr [jobj [("TC23", jstr s)]]) →
        (transformJson j).getKey key = some (jarr [jstr s]))
      ∧ (∀ a : List Json,
        j.getKey key = some (jarr a) → a ≠ [] →
        (∀ e ∈ a, (e.getKey "ARM-CMX").isSome ∧ e.getKey "TC23" = none) →
        (transformJson j).getKey key = some (jarr [])) := by
  intro key hkey j
  refine ⟨?_, ?_, ?_⟩
  · intro vs hv
    rw [getKey_transformJson j key hkey, hv]
    show some (mFn "TC23" (jarr [jobj [("TC23", jarr vs)]])) = _
    simp only [mFn]
    rw [flattenArr_of_arr "TC23" _ vs (by simp [Json.getKey, lookupEntries])]
  · intro s hv
    rw [getKey_transformJson j key hkey, hv]
    show some (mFn "TC23" (jarr [jobj [("TC23", jstr s)]])) = _
    simp only [mFn]
    rw [flattenArr_of_str "TC23" _ s (by simp [Json.getKey, lookupEntries])]
  · intro a hv hne harm
    rw [getKey_transformJson j key hkey, hv]
    show some (mFn "TC23" (jarr a)) = _
    simp only [mFn]
    cases a with
    | nil => exact absurd rfl hne
    | cons e0 rest =>
      have hbind : ((e0 :: rest).head?).bind (fun entry => entry.getKey "TC23")
          = none := by
        simp [(harm e0 (List.mem_cons_self _ _)).2]
      have hany : (e0 :: rest).any
          (fun entry => (entry.getKey "ARM-CMX").isSome) = true := by
        rw [List.any_eq_true]
        exact ⟨e0, List.mem_cons_self _ _, (harm e0 (List.mem_cons_self _ _)).1⟩
      have : flattenArr "TC23" (e0 :: rest) = [] := by
        unfold flattenArr
        rw [hbind, hany]
        rfl
      rw [this]

/-- C3, witness: the three shapes at concrete field values. -/
theorem c3_flatten_shapes_witness :
    (transformJson (jobj [("appliesTo",
        jarr [jobj [("TC23", jarr [jstr "a", jstr "b"])]])])).getKey "appliesTo"
      = some (jarr [jstr "a", jstr "b"])
    ∧ (transformJson (jobj [("usage",
        jarr [jobj [("TC23", jstr "a")]])])).getKey "usage"
      = some (jarr [jstr "a"])
    ∧ (transformJson (jobj [("errCodes",
        jarr [jobj [("ARM-CMX", jstr "y")]])])).getKey "errCodes"
      = some (jarr []) := by
  refine ⟨?_, ?_, ?_⟩
  · exact ((c3_flatten_shapes "appliesTo" (by decide) _).1
      [jstr "a", jstr "b"] rfl)
  · exact ((c3_flatten_shapes "usage" (by decide) _).2.1 "a" rfl)
  · exact ((c3_flatten_shapes "errCodes" (by decide) _).2.2
      [jobj [("ARM-CMX", jstr "y")]] rfl (by decide) (by decide))

/-! ## Claim C4 -/

/-- C4, counterexample: normalization is not idempotent. For the document
    `{"synopsis": [{"TC23": [{"TC23": "x"}]}]}` the first pass flattens the
    synopsis field to `[{"TC23": "x"}]`, and a second pass flattens it
    again to `["x"]`. -/
theorem c4_counterexample :
    transformJson (transformJson docNested) ≠ transformJson docNested
    ∧ (transformJson docNested).getKey "synopsis"
        = some (jarr [jobj [("TC23", jstr "x")]])
    ∧ (transformJson (transformJson docNested)).getKey "synopsis"
        = some (jarr [jstr "x"]) := by
  refine ⟨by decide, rfl, rfl⟩

/-- C4 (amended): normalization is idempotent on every document whose
    flattenable fields do not reintroduce platform-tagged objects when
    flattened — that is, whenever a flattenable field is an array whose
    first element maps "TC23" to an array, the elements of that array
    carry neither a "TC23" nor an "ARM-CMX" key. (The long-description and
    conditions-of-use transformations are idempotent unconditionally.) -/
theorem c4_normalize_idempotent_amended (j : Json)
    (h : ∀ key ∈ flattenKeys, flattenStable "TC23" j key) :
    transformJson (transformJson j) = transformJson j := by
  rw [transformJson_eq_applyUpdates (transformJson j), transformJson_eq_applyUpdates j]
  apply applyUpdates_idem _ _ transformList_pairwise
  intro p hp
  have hstable : ∀ key, key ∈ flattenKeys → p = (key, mFn "TC23") →
      idemAt j p.1 p.2 := by
    intro key hkey hpeq
    subst hpeq
    intro v hv
    cases v with
    | jarr a =>
      show mFn "TC23" (jarr (flattenArr "TC23" a)) = _
      simp only [mFn]
      exact congrArg jarr (flattenArr_flattenArr "TC23" a (h key hkey a hv))
    | jnull => rfl
    | jbool b => rfl
    | jnum n => rfl
    | jstr s => rfl
    | jobj o => rfl
  simp only [transformList, List.mem_cons, List.not_mem_nil, or_false] at hp
  rcases hp with hp | hp | hp | hp | hp | hp | hp
  · exact hstable "synopsis" (by decide) hp
  · exact hstable "arguments" (by decide) hp
  · exact hstable "appliesTo" (by decide) hp
  · exact hstable "errCodes" (by decide) hp
  · exact hstable "usage" (by decide) hp
  · subst hp
    intro v _
    exact descFn_descFn v
  · subst hp
    intro v _
    exact copFn_copFn v

/-- C4, witness: idempotence at a concrete well-tagged document. -/
theorem c4_normalize_idempotent_amended_witness :
    transformJson (transformJson
        (jobj [("appliesTo", jarr [jobj [("TC23", jarr [jstr "a"])]])]))
      = transformJson
        (jobj [("appliesTo", jarr [jobj [("TC23", jarr [jstr "a"])]])]) := by
  apply c4_normalize_idempotent_amended
  intro key hkey
  simp [flattenKeys] at hkey
  rcases hkey with h | h | h | h | h <;> subst h <;> intro a ha
  · simp [Json.getKey, lookupEntries] at ha
  · simp [Json.getKey, lookupEntries] at ha
  · simp [Json.getKey, lookupEntries] at ha
    subst ha
    intro v hv
    simp [Json.getKey, lookupEntries] at hv
    subst hv
    intro e he
    simp at he
    subst he
    exact ⟨rfl, rfl⟩
  · simp [Json.getKey, lookupEntries] at ha
  · simp [Json.getKey, lookupEntries] at ha

/-! ## Claim C5 -/

/-- C5, counterexample: the emptying rule does not look only at the first
    element. In `{"errCodes": [{"x": 1}, {"ARM-CMX": "y"}]}` the first
    element carries neither the "TC23" nor the "ARM-CMX" tag, yet the
    field is replaced with the empty array (because a later element
    carries "ARM-CMX") instead of being passed through unchanged. -/
theorem c5_counterexample :
    (jobj [("x", jnum 1)]).getKey "TC23" = none
    ∧ (jobj [("x", jnum 1)]).getKey "ARM-CMX" = none
    ∧ modifyStructure docLateArm "errCodes" "TC23" = jobj [("errCodes", jarr [])]
    ∧ modifyStructure docLateArm "errCodes" "TC23" ≠ docLateArm :=
  ⟨rfl, rfl, rfl, by decide⟩

/-- C5 (amended): a flattenable field whose first element carries neither
    the "TC23" nor the "ARM-CMX" key is passed through unchanged provided
    no element of the array carries the "ARM-CMX" key; when some element
    (not necessarily the first) carries "ARM-CMX", the field is replaced
    with the empty array. -/
theorem c5_passthrough_amended (j : Json) (key : String) (a : List Json)
    (hget : j.getKey key = some (jarr a))
    (hhead : ∀ e0, a.head? = some e0 →
      e0.getKey "TC23" = none ∧ e0.getKey "ARM-CMX" = none) :
    ((∀ e ∈ a, e.getKey "ARM-CMX" = none) →
      modifyStructure j key "TC23" = j)
    ∧ ((∃ e ∈ a, (e.getKey "ARM-CMX").isSome) →
      (modifyStructure j key "TC23").getKey key = some (jarr [])) := by
  have hbind : (a.head?).bind (fun e => e.getKey "TC23") = none := by
    cases hh : a.head? with
    | none => rfl
    | some e0 => simp [(hhead e0 hh).1]
  constructor
  · intro harm
    have hfa : flattenArr "TC23" a = a := by
      apply flattenArr_of_no_arm
      · intro t ht
        rw [hbind] at ht
        exact Option.noConfusion ht
      · intro s hs
        rw [hbind] at hs
        exact Option.noConfusion hs
      · exact harm
    show modifyStructure j key "TC23" = j
    simp only [modifyStructure, hget]
    rw [hfa]
    exact setKey_of_getKey j key (jarr a) hget
  · intro ⟨e, he, harm⟩
    have hany : a.any (fun entry => (entry.getKey "ARM-CMX").isSome) = true := by
      rw [List.any_eq_true]
      exact ⟨e, he, harm⟩
    have hfa : flattenArr "TC23" a = [] := by
      unfold flattenArr
      rw [hbind, hany]
      rfl
    simp only [modifyStructure, hget]
    rw [hfa, getKey_setKey_self, hget]
    rfl

/-- C5, witness: both halves at concrete documents. -/
theorem c5_passthrough_amended_witness :
    modifyStructure (jobj [("errCodes", jarr [jobj [("foo", jnull)]])])
        "errCodes" "TC23"
      = jobj [("errCodes", jarr [jobj [("foo", jnull)]])]
    ∧ (modifyStructure docLateArm "errCodes" "TC23").getKey "errCodes"
      = some (jarr []) := by
  constructor
  · exact (c5_passthrough_amended (jobj [("errCodes", jarr [jobj [("foo", jnull)]])])
      "errCodes" [jobj [("foo", jnull)]] rfl (by decide)).1 (by decide)
  · exact (c5_passthrough_amended docLateArm "errCodes"
      [jobj [("x", jnum 1)], jobj [("ARM-CMX", jstr "y")]] rfl (by decide)).2
      ⟨jobj [("ARM-CMX", jstr "y")], by decide, by decide⟩

/-! ## Claim C6 -/

/-- C6: every optional section of the rendered documentation whose source
    field is absent (`none`) or an empty list contributes no output lines
    at all — in particular no section header line: the Applies To,
    Synopsis, Arguments, Return Values, Error Codes, See Also and Usage
    sections, the whole Conditions-of-Use section when `cop` is absent,
    and each Conditions-of-Use subsection with an empty line list. -/
theorem c6_empty_sections (d : ApiDescription) :
    (d.applies_to = [] → appliesToSection d = [])
    ∧ (d.synopsis = none ∨ d.synopsis = some [] → synopsisSection d = .ok [])
    ∧ (d.arguments = none ∨ d.arguments = some [] → argumentsSection d = [])
    ∧ (d.ret_values = none ∨ d.ret_values = some [] → retValuesSection d = [])
    ∧ (d.err_codes = none ∨ d.err_codes = some [] → errCodesSection d = [])
    ∧ (d.cop = none → copSection d = [])
    ∧ (∀ header : String, copLines header [] = [])
    ∧ (d.see_also = none ∨ d.see_also = some [] → seeAlsoSection d = [])
    ∧ (d.usage = none ∨ d.usage = some [] → usageSection d = []) := by
  refine ⟨?_, ?_, ?_, ?_, ?_, ?_, ?_, ?_, ?_⟩
  · intro h
    simp [appliesToSection, h]
  · rintro (h | h) <;> simp [synopsisSection, h]
  · rintro (h | h) <;> simp [argumentsSection, h]
  · rintro (h | h) <;> simp [retValuesSection, h]
  · rintro (h | h) <;> simp [errCodesSection, h]
  · intro h
    simp [copSection, h]
  · intro header
    simp [copLines]
  · rintro (h | h) <;> simp [seeAlsoSection, h]
  · rintro (h | h) <;> simp [usageSection, h]

/-- C6, witness: at a description whose optional fields are all empty or
    absent, every optional section renders to no lines. -/
theorem c6_empty_sections_witness :
    appliesToSection ⟨⟨"PxFoo", "PxFoo"⟩, some [], none, some [], none, [],
        ⟨"s", []⟩, some [], none, none⟩ = []
    ∧ synopsisSection ⟨⟨"PxFoo", "PxFoo"⟩, some [], none, some [], none, [],
        ⟨"s", []⟩, some [], none, none⟩ = .ok []
    ∧ argumentsSection ⟨⟨"PxFoo", "PxFoo"⟩, some [], none, some [], none, [],
        ⟨"s", []⟩, some [], none, none⟩ = []
    ∧ retValuesSection ⟨⟨"PxFoo", "PxFoo"⟩, some [], none, some [], none, [],
        ⟨"s", []⟩, some [], none, none⟩ = []
    ∧ errCodesSection ⟨⟨"PxFoo", "PxFoo"⟩, some [], none, some [], none, [],
        ⟨"s", []⟩, some [], none, none⟩ = []
    ∧ copSection ⟨⟨"PxFoo", "PxFoo"⟩, some [], none, some [], none, [],
        ⟨"s", []⟩, some [], none, none⟩ = []
    ∧ copLines "/// #### Before Call" [] = []
    ∧ seeAlsoSection ⟨⟨"PxFoo", "PxFoo"⟩, some [], none, some [], none, [],
        ⟨"s", []⟩, some [], none, none⟩ = []
    ∧ usageSection ⟨⟨"PxFoo", "PxFoo"⟩, some [], none, some [], none, [],
        ⟨"s", []⟩, some [], none, none⟩ = [] := by
  refine ⟨(c6_empty_sections _).1 rfl,
    (c6_empty_sections _).2.1 (Or.inr rfl),
    (c6_empty_sections _).2.2.1 (Or.inl rfl),
    (c6_empty_sections _).2.2.2.1 (Or.inr rfl),
    (c6_empty_sections _).2.2.2.2.1 (Or.inl rfl),
    (c6_empty_sections _).2.2.2.2.2.1 rfl,
    (c6_empty_sections ⟨⟨"PxFoo", "PxFoo"⟩, some [], none, some [], none, [],
        ⟨"s", []⟩, some [], none, none⟩).2.2.2.2.2.2.1 "/// #### Before Call",
    (c6_empty_sections _).2.2.2.2.2.2.2.1 (Or.inr rfl),
    (c6_empty_sections _).2.2.2.2.2.2.2.2 (Or.inl rfl)⟩

/-! ## Claim C7 -/

theorem argNames_map_typed (params : List (String × String)) :
    argNames (params.map (fun p => RFnArg.typed p.1 p.2)) = params.map Prod.fst := by
  induction params with
  | nil => rfl
  | cons p rest ih => simp [argNames, List.filterMap_cons] at ih ⊢; exact ih

theorem stripUnderscores_eq_some (s t : String)
    (h : stripUnderscores s = some t) : s.data = '_' :: '_' :: t.data := by
  unfold stripUnderscores at h
  split at h
  · next rest heq =>
    injection h with h1
    subst h1
    exact heq
  · exact Option.noConfusion h

/-- C7: for the registry entry `{name: "PxGetId", reasoning: ["r1"]}`, a
    foreign block whose first item is a function named `__PxGetId`
    produces exactly one public wrapper named `PxGetId` with the identical
    parameter list and return type, forwarding every parameter by name in
    original order to `__PxGetId`; the injection driver appends the
    safety-rationale block containing `r1`; and a file with no matching
    foreign declaration produces nothing. -/
theorem c7_wrapper_synthesis :
    (∀ (params : List (String × String)) (output : String)
        (restItems : List RForeignItem),
      generateSafeFunctionWrappers
        [RItem.foreignMod (RForeignItem.fn
          ⟨"__PxGetId", params.map (fun p => RFnArg.typed p.1 p.2), output⟩
          :: restItems)]
        [⟨"PxGetId", ["r1"]⟩]
      = [⟨true, ⟨"PxGetId", params.map (fun p => RFnArg.typed p.1 p.2), output⟩,
          "__PxGetId", params.map Prod.fst⟩])
    ∧ (∀ apidoc : String,
        appendSafetyDoc apidoc [⟨"PxGetId", ["r1"]⟩] "PxGetId"
          = apidoc ++ "///\n" ++ "/// ### Safety reasoning (Veecle):\n"
            ++ "/// r1\n")
    ∧ (∀ file : List RItem,
        (∀ item ∈ file, firstForeignFnName item ≠ some "__PxGetId") →
        generateSafeFunctionWrappers file [⟨"PxGetId", ["r1"]⟩] = []) := by
  refine ⟨?_, ?_, ?_⟩
  · intro params output restItems
    have h1 : tryGenerateSafeFunctionWrapper
        (RItem.foreignMod (RForeignItem.fn
          ⟨"__PxGetId", params.map (fun p => RFnArg.typed p.1 p.2), output⟩
          :: restItems))
        [⟨"PxGetId", ["r1"]⟩]
        = some ⟨true,
            ⟨"PxGetId", params.map (fun p => RFnArg.typed p.1 p.2), output⟩,
            "__PxGetId", params.map Prod.fst⟩ := by
      simp [tryGenerateSafeFunctionWrapper, stripUnderscores,
        argNames_map_typed]
    simp [generateSafeFunctionWrappers, List.filterMap_cons, h1]
  · intro apidoc
    simp [appendSafetyDoc, List.find?, String.join]
  · intro file hfile
    have hnone : ∀ item : RItem, firstForeignFnName item ≠ some "__PxGetId" →
        tryGenerateSafeFunctionWrapper item [⟨"PxGetId", ["r1"]⟩] = none := by
      intro item hname
      cases item with
      | other => rfl
      | foreignMod items =>
        cases hh : items.head? with
        | none => simp [tryGenerateSafeFunctionWrapper, hh]
        | some fi =>
          cases fi with
          | other => simp [tryGenerateSafeFunctionWrapper, hh]
          | fn sig =>
            have hid : sig.ident ≠ "__PxGetId" := by
              intro hcon
              apply hname
              simp [firstForeignFnName, hh, hcon]
            cases hstrip : stripUnderscores sig.ident with
            | none => simp [tryGenerateSafeFunctionWrapper, hh, hstrip]
            | some stripped =>
              have hne : ("PxGetId" : String) ≠ stripped := by
                intro hcon
                apply hid
                have hdata : sig.ident.data = "__PxGetId".data := by
                  rw [stripUnderscores_eq_some _ _ hstrip, ← hcon]
                exact congrArg String.mk hdata
              simp [tryGenerateSafeFunctionWrapper, hh, hstrip, hne]
    simp only [generateSafeFunctionWrappers, List.filterMap_eq_nil_iff]
    intro item hmem
    exact hnone item (hfile item hmem)

/-- C7, witness: synthesis at one concrete foreign declaration and a
    non-matching file. -/
theorem c7_wrapper_synthesis_witness :
    generateSafeFunctionWrappers
        [RItem.foreignMod (RForeignItem.fn
          ⟨"__PxGetId", [RFnArg.typed "a" "T"], "R"⟩ :: [])]
        [⟨"PxGetId", ["r1"]⟩]
      = [⟨true, ⟨"PxGetId", [RFnArg.typed "a" "T"], "R"⟩, "__PxGetId", ["a"]⟩]
    ∧ appendSafetyDoc "doc" [⟨"PxGetId", ["r1"]⟩] "PxGetId"
      = "doc" ++ "///\n" ++ "/// ### Safety reasoning (Veecle):\n" ++ "/// r1\n"
    ∧ generateSafeFunctionWrappers [RItem.other] [⟨"PxGetId", ["r1"]⟩] = [] := by
  refine ⟨?_, c7_wrapper_synthesis.2.1 "doc", ?_⟩
  · have := c7_wrapper_synthesis.1 [("a", "T")] "R" []
    simpa using this
  · apply c7_wrapper_synthesis.2.2 [RItem.other]
    intro it hit
    simp at hit
    subst hit
    simp [firstForeignFnName]

/-! ## Claim C8 -/

theorem cap_imp_word (c : Char) (h : isCapOrUnderscore c = true) :
    isWordChar c = true := by
  simp [isCapOrUnderscore] at h
  rcases h with ⟨h1, h2⟩ | h
  · simp [isWordChar, Char.isAlphanum, Char.isAlpha, Char.isUpper]
    exact Or.inl (Or.inl (Or.inl ⟨h1, h2⟩))
  · simp [isWordChar, h]

theorem mlFlush_nil : mlFlush [] = [] := rfl

theorem mlFlush_of_cap (w : List Char) (hne : w ≠ [])
    (hcap : ∀ c ∈ w, isCapOrUnderscore c = true) :
    mlFlush w = '`' :: (w ++ ['`']) := by
  unfold mlFlush
  rw [if_pos]
  simp [List.isEmpty_iff, hne, List.all_eq_true]
  exact hcap

theorem mlFlush_of_not_all_cap (acc : List Char)
    (h : acc = [] ∨ ∃ c ∈ acc, isCapOrUnderscore c = false) :
    mlFlush acc = acc := by
  rcases h with h | ⟨c, hc, hcap⟩
  · subst h
    rfl
  · unfold mlFlush
    rw [if_neg]
    simp [List.all_eq_true]
    intro _
    exact ⟨c, hc, by simp [hcap]⟩

theorem mlGo_all_word (w : List Char) :
    ∀ (acc ys : List Char), (∀ c ∈ w, isWordChar c = true) →
      mlGo acc (w ++ ys) = mlGo (acc ++ w) ys := by
  induction w with
  | nil => intro acc ys _; simp
  | cons c w' ih =>
    intro acc ys h
    show mlGo acc (c :: (w' ++ ys)) = _
    rw [show mlGo acc (c :: (w' ++ ys))
        = mlGo (acc ++ [c]) (w' ++ ys) from by
      simp [mlGo, h c (List.mem_cons_self _ _)]]
    rw [ih (acc ++ [c]) ys (fun x hx => h x (List.mem_cons_of_mem _ hx))]
    simp

theorem mlGo_append_sep (pre : List Char) :
    ∀ (acc ys : List Char), pre ≠ [] →
      (∀ c, pre.getLast? = some c → isWordChar c = false) →
      mlGo acc (pre ++ ys) = mlGo acc pre ++ mlGo [] ys := by
  induction pre with
  | nil => intro acc ys h _; exact absurd rfl h
  | cons c pre' ih =>
    intro acc ys _ hlast
    cases pre' with
    | nil =>
      have hc : isWordChar c = false := hlast c rfl
      show mlGo acc (c :: ys) = mlGo acc [c] ++ mlGo [] ys
      simp [mlGo, hc, mlFlush_nil]
    | cons c2 pre'' =>
      have hlast' : ∀ x, (c2 :: pre'').getLast? = some x → isWordChar x = false := by
        intro x hx
        apply hlast
        rw [List.getLast?_cons_cons]
        exact hx
      cases hword : isWordChar c with
      | true =>
        show mlGo acc (c :: ((c2 :: pre'') ++ ys)) = mlGo acc (c :: (c2 :: pre'')) ++ _
        rw [show mlGo acc (c :: ((c2 :: pre'') ++ ys))
            = mlGo (acc ++ [c]) ((c2 :: pre'') ++ ys) from by simp [mlGo, hword]]
        rw [show mlGo acc (c :: (c2 :: pre''))
            = mlGo (acc ++ [c]) (c2 :: pre'') from by simp [mlGo, hword]]
        exact ih (acc ++ [c]) ys (by simp) hlast'
      | false =>
        show mlGo acc (c :: ((c2 :: pre'') ++ ys)) = mlGo acc (c :: (c2 :: pre'')) ++ _
        rw [show mlGo acc (c :: ((c2 :: pre'') ++ ys))
            = mlFlush acc ++ c :: mlGo [] ((c2 :: pre'') ++ ys) from by
          simp [mlGo, hword]]
        rw [show mlGo acc (c :: (c2 :: pre''))
            = mlFlush acc ++ c :: mlGo [] (c2 :: pre'') from by
          simp [mlGo, hword]]
        rw [ih [] ys (by simp) hlast']
        simp

theorem mlGo_wrap (w post : List Char) (hne : w ≠ [])
    (hcap : ∀ c ∈ w, isCapOrUnderscore c = true)
    (hpost : ∀ c, post.head? = some c → isWordChar c = false) :
    mlGo [] (w ++ post) = '`' :: (w ++ '`' :: mlGo [] post) := by
  rw [mlGo_all_word w [] post (fun c hc => cap_imp_word c (hcap c hc))]
  simp only [List.nil_append]
  cases post with
  | nil =>
    show mlGo w [] = _
    simp [mlGo, mlFlush_of_cap w hne hcap, mlFlush_nil]
  | cons p rest =>
    have hp : isWordChar p = false := hpost p rfl
    show mlGo w (p :: rest) = _
    rw [show mlGo w (p :: rest) = mlFlush w ++ p :: mlGo [] rest from by
      simp [mlGo, hp]]
    rw [mlFlush_of_cap w hne hcap]
    rw [show mlGo [] (p :: rest) = mlFlush [] ++ p :: mlGo [] rest from by
      simp [mlGo, hp]]
    simp [mlFlush_nil]

theorem mlGo_untouched (l : List Char) :
    ∀ acc : List Char,
      (acc = [] ∨ ∃ c ∈ acc, isCapOrUnderscore c = false) →
      (∀ c ∈ l, isCapOrUnderscore c = false) →
      mlGo acc l = acc ++ l := by
  induction l with
  | nil =>
    intro acc hacc _
    show mlFlush acc = acc ++ []
    rw [mlFlush_of_not_all_cap acc hacc, List.append_nil]
  | cons c rest ih =>
    intro acc hacc h
    have hc : isCapOrUnderscore c = false := h c (List.mem_cons_self _ _)
    have hrest : ∀ x ∈ rest, isCapOrUnderscore x = false :=
      fun x hx => h x (List.mem_cons_of_mem _ hx)
    cases hword : isWordChar c with
    | true =>
      rw [show mlGo acc (c :: rest) = mlGo (acc ++ [c]) rest from by
        simp [mlGo, hword]]
      rw [ih (acc ++ [c]) (Or.inr ⟨c, by simp, hc⟩) hrest]
      simp
    | false =>
      rw [show mlGo acc (c :: rest) = mlFlush acc ++ c :: mlGo [] rest from by
        simp [mlGo, hword]]
      rw [ih [] (Or.inl rfl) hrest, mlFlush_of_not_all_cap acc hacc]
      simp

/-- C8: `make_literal` wraps every maximal word-character run consisting
    solely of uppercase letters and underscores (the matches of
    `\b[A-Z_]+\b`) in backticks and leaves all other text untouched; on
    `"Returns PXERR_NOERROR on success"` exactly `PXERR_NOERROR` is
    wrapped. -/
theorem c8_make_literal :
    makeLiteral "Returns PXERR_NOERROR on success"
      = "Returns `PXERR_NOERROR` on success"
    ∧ (∀ s : String, (∀ c ∈ s.data, isCapOrUnderscore c = false) →
        makeLiteral s = s)
    ∧ (∀ pre w post : List Char, w ≠ [] →
        (∀ c ∈ w, isCapOrUnderscore c = true) →
        (∀ c, pre.getLast? = some c → isWordChar c = false) →
        (∀ c, post.head? = some c → isWordChar c = false) →
        mlGo [] (pre ++ (w ++ post))
          = mlGo [] pre ++ '`' :: (w ++ '`' :: mlGo [] post)) := by
  refine ⟨by decide, ?_, ?_⟩
  · intro s h
    show (⟨mlGo [] s.data⟩ : String) = s
    rw [mlGo_untouched s.data [] (Or.inl rfl) h]
    rfl
  · intro pre w post hne hcap hpre hpost
    cases pre with
    | nil =>
      simp only [List.nil_append]
      rw [mlGo_wrap w post hne hcap hpost]
      rfl
    | cons p pre' =>
      rw [mlGo_append_sep (p :: pre') [] (w ++ post) (by simp) hpre,
        mlGo_wrap w post hne hcap hpost]

/-- C8, witness: the general statements at concrete inputs. -/
theorem c8_make_literal_witness :
    makeLiteral "on success" = "on success"
    ∧ mlGo [] ([' '] ++ (['A', '_'] ++ [' ']))
      = mlGo [] [' '] ++ '`' :: (['A', '_'] ++ '`' :: mlGo [] [' ']) :=
  ⟨c8_make_literal.2.1 "on success" (by decide),
   c8_make_literal.2.2 [' '] ['A', '_'] [' '] (by decide) (by decide)
     (by decide) (by decide)⟩

/-! ## Claim C9 -/

theorem mapMExcept_error (f : α → Except String β) :
    ∀ (l : List α) (x : α), x ∈ l → (∃ e, f x = .error e) →
      ∃ e', mapMExcept f l = .error e' := by
  intro l
  induction l with
  | nil => intro x hx; exact absurd hx (List.not_mem_nil x)
  | cons y rest ih =>
    intro x hx hfx
    cases hy : f y with
    | error e => exact ⟨e, by simp [mapMExcept, hy]⟩
    | ok b =>
      rcases List.mem_cons.mp hx with heq | hmem
      · subst heq
        obtain ⟨e, he⟩ := hfx
        rw [he] at hy
        exact Except.noConfusion hy
      · obtain ⟨e', he'⟩ := ih x hmem hfx
        exact ⟨e', by simp [mapMExcept, hy, he']⟩

theorem convert_short_error (s : String)
    (h : (splitWhitespaceR (rustTrim s)).length < 2) :
    ∃ e, convertCFuncToRust s = .error e := by
  cases hp : splitWhitespaceR (rustTrim s) with
  | nil => exact ⟨"index out of bounds: parts[0]", by simp [convertCFuncToRust, hp]⟩
  | cons a t =>
    cases t with
    | nil => exact ⟨"index out of bounds: parts[1]", by simp [convertCFuncToRust, hp]⟩
    | cons b t2 =>
      rw [hp] at h
      simp at h
      omega

/-- C9: `convert_c_func_to_rust` is not total — it fails (out-of-bounds
    token indexing) on the empty string, on `"foo"`, and on every string
    whose trimmed whitespace tokenization has fewer than two tokens; as a
    consequence the renderer fails on every ApiDescription whose synopsis
    list contains such an entry. -/
theorem c9_convert_partial :
    convertCFuncToRust "" = .error "index out of bounds: parts[0]"
    ∧ convertCFuncToRust "foo" = .error "index out of bounds: parts[1]"
    ∧ (∀ s : String, (splitWhitespaceR (rustTrim s)).length < 2 →
        ∃ e, convertCFuncToRust s = .error e)
    ∧ (∀ (d : ApiDescription) (syn : List String) (entry : String),
        d.synopsis = some syn → entry ∈ syn →
        (splitWhitespaceR (rustTrim entry)).length < 2 →
        ∃ e, render d = .error e) := by
  refine ⟨rfl, rfl, convert_short_error, ?_⟩
  intro d syn entry hsyn hmem hshort
  have hconv : ∃ e, (convertCFuncToRust entry).map
      (fun r => "/// " ++ r) = .error e := by
    obtain ⟨e, he⟩ := convert_short_error entry hshort
    exact ⟨e, by simp [he, Except.map]⟩
  obtain ⟨e', he'⟩ := mapMExcept_error
    (fun item => (convertCFuncToRust item).map (fun r => "/// " ++ r))
    syn entry hmem hconv
  have hempty : syn.isEmpty = false := by
    cases syn with
    | nil => exact absurd hmem (List.not_mem_nil entry)
    | cons a t => rfl
  have hsec : synopsisSection d = .error e' := by
    simp only [synopsisSection, hsyn, hempty, Bool.false_eq_true, if_false]
    unfold writeSectionNormal
    rw [he']
    rfl
  exact ⟨e', by unfold render; rw [hsec]; rfl⟩

/-- C9, witness: the failure at a concrete synopsis entry and a concrete
    ApiDescription containing it. -/
theorem c9_convert_partial_witness :
    (convertCFuncToRust "foo").isOk = false
    ∧ (render ⟨⟨"PxFoo", "PxFoo"⟩, some ["foo"], none, none, none, [],
        ⟨"s", []⟩, none, none, none⟩).isOk = false := by
  constructor
  · obtain ⟨e, he⟩ := c9_convert_partial.2.2.1 "foo" (by decide)
    rw [he]
    rfl
  · obtain ⟨e, he⟩ := c9_convert_partial.2.2.2
      ⟨⟨"PxFoo", "PxFoo"⟩, some ["foo"], none, none, none, [],
        ⟨"s", []⟩, none, none, none⟩
      ["foo"] "foo" rfl (List.mem_cons_self _ _) (by decide)
    rw [he]
    rfl

/-! ## Claim C2 -/

/-- C2, counterexample: a doc file that is present but not valid JSON is
    not recovered locally — `transform_input` panics
    (`expect("Failed to parse JSON")`), aborting the whole run, including
    the processing of every other file. `none` stands for the parse
    outcome of a file whose contents are not valid JSON (for example
    `"{"`). -/
theorem c2_counterexample :
    generateComments none = .error "Failed to parse JSON"
    ∧ processFiles [some (jobj []), none] = .error "Failed to parse JSON" :=
  ⟨rfl, rfl⟩

/-- C2 (amended): a present doc file that parses as JSON but fails the
    ApiDescription schema parse is recovered locally — the inline
    diagnostic `Failed to parse JSON: …` is produced in place of that
    function's documentation and the run continues; and whenever every
    file's processing succeeds, the driver loop succeeds on all of them.
    A present file that is not valid JSON, however, panics and aborts the
    entire run. -/
theorem c2_malformed_recovery_amended :
    (∀ (j : Json) (e : String),
      parseApiDescription (transformJson j) = .error e →
      generateComments (some j) = .ok ["Failed to parse JSON: " ++ e])
    ∧ (∀ files : List (Option Json),
        (∀ f ∈ files, ∃ out, generateComments f = .ok out) →
        ∃ outs, processFiles files = .ok outs ∧ outs.length = files.length) := by
  constructor
  · intro j e h
    simp [generateComments, transformInput, h]
  · intro files
    induction files with
    | nil => intro _; exact ⟨[], rfl, rfl⟩
    | cons f rest ih =>
      intro h
      obtain ⟨out, hout⟩ := h f (List.mem_cons_self _ _)
      obtain ⟨outs, houts, hlen⟩ := ih (fun x hx => h x (List.mem_cons_of_mem _ hx))
      refine ⟨out :: outs, ?_, by simp [hlen]⟩
      show mapMExcept generateComments (f :: rest) = _
      have houts' : mapMExcept generateComments rest = .ok outs := houts
      simp [mapMExcept, hout, houts']

/-- C2, witness: the recovery at a concrete schema-failing document and a
    concrete successful file list. -/
theorem c2_malformed_recovery_amended_witness :
    generateComments (some (jobj []))
      = .ok ["Failed to parse JSON: " ++ "missing field name"]
    ∧ (processFiles [some (jobj [])]).isOk = true := by
  constructor
  · exact c2_malformed_recovery_amended.1 (jobj []) "missing field name" rfl
  · obtain ⟨outs, houts, _⟩ := c2_malformed_recovery_amended.2 [some (jobj [])]
      (by
        intro f hf
        simp at hf
        subst hf
        exact ⟨["Failed to parse JSON: " ++ "missing field name"], rfl⟩)
    rw [houts]
    rfl

/-! ## Claim C10 -/

theorem foldl_str_acc (l : List String) :
    ∀ s : String, l.foldl (· ++ ·) s = s ++ l.foldl (· ++ ·) "" := by
  induction l with
  | nil => intro s; exact (String.append_empty s).symm
  | cons x t ih =>
    intro s
    show t.foldl (· ++ ·) (s ++ x) = s ++ (t.foldl (· ++ ·) ("" ++ x))
    rw [ih (s ++ x), ih ("" ++ x)]
    simp [String.append_assoc]

theorem join_cons (x : String) (l : List String) :
    String.join (x :: l) = x ++ String.join l := by
  show (x :: l).foldl (· ++ ·) "" = _
  show l.foldl (· ++ ·) ("" ++ x) = _
  rw [foldl_str_acc l ("" ++ x)]
  rfl

theorem str_foldl_append (g : α → String) :
    ∀ (l : List α) (s : String),
      l.foldl (fun acc x => acc ++ g x) s = s ++ String.join (l.map g) := by
  intro l
  induction l with
  | nil => intro s; exact (String.append_empty s).symm
  | cons x t ih =>
    intro s
    show t.foldl (fun acc x => acc ++ g x) (s ++ g x) = _
    rw [ih (s ++ g x), List.map_cons, join_cons, String.append_assoc]

theorem fold_skip_eq (g : String → String) :
    ∀ (l : List Json) (s : String),
      l.foldl (fun acc c =>
        match c.asStr with
        | some t => acc ++ g t
        | none => acc) s
      = s ++ String.join ((l.filterMap asStr).map g) := by
  intro l
  induction l with
  | nil => intro s; exact (String.append_empty s).symm
  | cons x t ih =>
    intro s
    cases hx : x.asStr with
    | some v =>
      simp only [List.foldl_cons, hx]
      rw [ih (s ++ g v), List.filterMap_cons, hx, List.map_cons, join_cons,
        String.append_assoc]
    | none =>
      simp only [List.foldl_cons, hx]
      rw [ih s, List.filterMap_cons, hx]

theorem blockText_eq_amended (item : Json) :
    blockText "TC23" item = amendedBlockText "TC23" item := by
  have hPPfun : (fun (acc : String) (content : Json) =>
      match content.asStr with
      | some t => acc ++ "\n" ++ t ++ "\n"
      | none => acc)
      = (fun (acc : String) (content : Json) =>
      match content.asStr with
      | some t => acc ++ ("\n" ++ t ++ "\n")
      | none => acc) := by
    funext acc c
    cases c.asStr <;> simp [String.append_assoc]
  have hBLfun : (fun (acc : String) (b : Json) =>
      match b.asStr with
      | some t => acc ++ "\n * " ++ t
      | none => acc)
      = (fun (acc : String) (b : Json) =>
      match b.asStr with
      | some t => acc ++ ("\n * " ++ t)
      | none => acc) := by
    funext acc c
    cases c.asStr <;> simp [String.append_assoc]
  unfold blockText amendedBlockText
  cases hty : (item.getKey "type").bind asStr with
  | none => rfl
  | some s =>
    by_cases hPP : s = "PP"
    · subst hPP
      simp only [reduceIte]
      cases hta : (item.getKey "TC23").bind asArray with
      | some ppContent =>
        simp only [hta]
        rw [hPPfun, fold_skip_eq]
        rfl
      | none => simp only [hta]
    · by_cases hBL : s = "BL"
      · subst hBL
        simp only [reduceIte]
        cases hta : (item.getKey "TC23").bind asArray with
        | some bullets =>
          simp only [hta]
          rw [hBLfun, fold_skip_eq]
          rfl
        | none =>
          simp only [hta]
          cases htx : (item.getKey "text").bind asArray with
          | some bullets =>
            simp only [htx]
            rw [hBLfun, fold_skip_eq]
            rfl
          | none => rfl
      · simp only [if_neg hPP, if_neg hBL]

/-- C10, counterexample: the claim's formula for the normalized long
    description misses the extra newline that a bullet-list block taken
    from the flat "text" key contributes. For the document with
    `long = [{"type":"BL","text":["a"]}, {"type":"PP","text":"b"}]` the
    code produces the text `"* a\n\nb"`, while the claim's formula
    (`claimBlockText`) predicts `"* a\nb"`. -/
theorem c10_counterexample :
    (transformDescription docFlatBL "TC23").getKey "description"
      = some (jobj [("short", jstr "s"),
          ("long", jarr [jobj [("type", jstr "PP"), ("text", jstr "* a\n\nb")]])])
    ∧ rustTrim (String.join
        ([jobj [("type", jstr "BL"), ("text", jarr [jstr "a"])],
          jobj [("type", jstr "PP"), ("text", jstr "b")]].map
          (claimBlockText "TC23")))
      = "* a\nb"
    ∧ ("* a\n\nb" : String) ≠ "* a\nb" :=
  ⟨rfl, rfl, by decide⟩

/-- C10 (amended): for every document whose `description.long` field is a
    JSON array, normalization replaces it with exactly one block of type
    "PP" whose text is the trimmed concatenation of the block
    contributions — paragraph texts wrapped in newlines, bullet items
    rendered as `"\n * item"` with one extra trailing newline when the
    bullet list is taken from the flat "text" key, and nothing for
    unrecognized block types. -/
theorem c10_long_invariant_amended (j descr : Json) (items : List Json)
    (hdesc : j.getKey "description" = some descr)
    (hlong : descr.getKey "long" = some (jarr items)) :
    transformDescription j "TC23"
      = j.setKey "description" (descr.setKey "long"
          (jarr [jobj [("type", jstr "PP"),
            ("text", jstr (rustTrim
              (String.join (items.map (amendedBlockText "TC23")))))]])) := by
  simp only [transformDescription, hdesc, hlong, Json.asArray, Option.bind]
  have hfold : items.foldl (fun acc item => acc ++ blockText "TC23" item) ""
      = String.join (items.map (amendedBlockText "TC23")) := by
    rw [str_foldl_append (blockText "TC23") items ""]
    have : items.map (blockText "TC23") = items.map (amendedBlockText "TC23") :=
      List.map_congr_left (fun x _ => blockText_eq_amended x)
    rw [this]
    rfl
  rw [hfold]

/-- C10, witness: the invariant at the concrete document `docFlatBL`. -/
theorem c10_long_invariant_amended_witness :
    transformDescription docFlatBL "TC23"
      = docFlatBL.setKey "description"
          ((jobj [("short", jstr "s"),
            ("long", jarr [jobj [("type", jstr "BL"), ("text", jarr [jstr "a"])],
                           jobj [("type", jstr "PP"), ("text", jstr "b")]])]).setKey
            "long"
            (jarr [jobj [("type", jstr "PP"),
              ("text", jstr (rustTrim (String.join
                ([jobj [("type", jstr "BL"), ("text", jarr [jstr "a"])],
                  jobj [("type", jstr "PP"), ("text", jstr "b")]].map
                  (amendedBlockText "TC23")))))]])) :=
  c10_long_invariant_amended docFlatBL
    (jobj [("short", jstr "s"),
      ("long", jarr [jobj [("type", jstr "BL"), ("text", jarr [jstr "a"])],
                     jobj [("type", jstr "PP"), ("text", jstr "b")]])])
    [jobj [("type", jstr "BL"), ("text", jarr [jstr "a"])],
     jobj [("type", jstr "PP"), ("text", jstr "b")]]
    rfl rfl

end Pxros
